import Mathlib

set_option maxRecDepth 1000000

/-!
# Verification of the ICDA repository against its specification

This file shallowly embeds the parts of the ICDA sources that the
specification's claims talk about:

* the storage canister (`src/canister/storage/src/lib.rs`, `blob.rs`,
  `time_heap.rs`, `config.rs`): `save_blob`, `get_blob`,
  `get_blob_with_index`, the retention time heap and the incremental
  digest state;
* the signature canister (`src/canister/signature/src/lib.rs`,
  `confirmation.rs`): `insert_digest`, `get_confirmation`,
  `prune_expired_confirmation`, `update_signature`;
* the client (`src/icda-core/src/icda.rs`, `backup.rs`,
  `canister_interface/storage.rs`, `canister_interface/signature.rs`):
  chunking, blob keys, the per-replica reader, the backup file names and
  `verify_confirmation`.

Machine bytes are modelled as `Nat` values `< 256`, 32-bit words as `Nat`
reduced `% 2^32`; maps keyed by hex-encoded digests are keyed by the digest
byte list itself (`hex::encode` is injective on byte arrays, so this is a
bijective renaming of the key space).  Rust panics (slice out of range,
`.unwrap()` on `None`) are modelled by `Option`-valued functions returning
`none`.

SHA-256 (the `sha2` crate) and the Merkle tree of the `rs_merkle` crate are
embedded concretely so that the claims can be evaluated on explicit inputs.
-/

/-! ## SHA-256 (FIPS 180-4, as computed by the `sha2` crate) -/

/-- Truncate to a 32-bit word. -/
def mask32 (x : Nat) : Nat := x % 4294967296

/-- 32-bit right rotation. -/
def rotr32 (n x : Nat) : Nat := mask32 ((x >>> n) ||| (x <<< (32 - n)))

/-- The SHA-256 round constants. -/
def shaK : List Nat :=
  [1116352408, 1899447441, 3049323471, 3921009573, 961987163,
   1508970993, 2453635748, 2870763221, 3624381080, 310598401,
   607225278, 1426881987, 1925078388, 2162078206, 2614888103,
   3248222580, 3835390401, 4022224774, 264347078, 604807628,
   770255983, 1249150122, 1555081692, 1996064986, 2554220882,
   2821834349, 2952996808, 3210313671, 3336571891, 3584528711,
   113926993, 338241895, 666307205, 773529912, 1294757372,
   1396182291, 1695183700, 1986661051, 2177026350, 2456956037,
   2730485921, 2820302411, 3259730800, 3345764771, 3516065817,
   3600352804, 4094571909, 275423344, 430227734, 506948616,
   659060556, 883997877, 958139571, 1322822218, 1537002063,
   1747873779, 1955562222, 2024104815, 2227730452, 2361852424,
   2428436474, 2756734187, 3204031479, 3329325298]

/-- The SHA-256 initial hash value. -/
def shaH0 : List Nat :=
  [1779033703, 3144134277, 1013904242, 2773480762,
   1359893119, 2600822924, 528734635, 1541459225]

/-- SHA-256 padding: append `0x80`, zero bytes, and the bit length as a
big-endian 64-bit integer, reaching a multiple of 64 bytes. -/
def shaPad (msg : List Nat) : List Nat :=
  let len := msg.length
  let zeros := (64 + 55 - len % 64) % 64
  let bitLen := len * 8
  msg ++ [0x80] ++ List.replicate zeros 0 ++
    [mask32 (bitLen >>> 56) % 256, (bitLen >>> 48) % 256, (bitLen >>> 40) % 256,
     (bitLen >>> 32) % 256, (bitLen >>> 24) % 256, (bitLen >>> 16) % 256,
     (bitLen >>> 8) % 256, bitLen % 256]

/-- Split a list into chunks of `n` elements (`n` is positive at all uses);
structural recursion so that the kernel can evaluate it. -/
def listChunksGo (n : Nat) : List α → List α → List (List α)
  | [], acc => if acc.isEmpty then [] else [acc.reverse]
  | x :: xs, acc =>
    let acc2 := x :: acc
    if acc2.length == n then acc2.reverse :: listChunksGo n xs []
    else listChunksGo n xs acc2

/-- Split a list into chunks of `n` elements. -/
def listChunks (n : Nat) (l : List α) : List (List α) := listChunksGo n l []

/-- Interpret four bytes as a big-endian 32-bit word. -/
def word32OfBytes : List Nat → Nat
  | [a, b, c, d] => a * 16777216 + b * 65536 + c * 256 + d
  | _ => 0

/-- Extend the 16 message words to 64 words.  The working list is kept
newest-first, so the recurrence taps positions 1, 6, 14 and 15. -/
def shaSchedule (w : List Nat) : Nat → List Nat
  | 0 => w
  | n + 1 =>
    let w2 := w.getD 1 0
    let w7 := w.getD 6 0
    let w15 := w.getD 14 0
    let w16 := w.getD 15 0
    let s0 := (rotr32 7 w15) ^^^ (rotr32 18 w15) ^^^ (w15 >>> 3)
    let s1 := (rotr32 17 w2) ^^^ (rotr32 19 w2) ^^^ (w2 >>> 10)
    shaSchedule (mask32 (s1 + w7 + s0 + w16) :: w) n

/-- One SHA-256 round. -/
def shaRound (st : List Nat) (kw : Nat × Nat) : List Nat :=
  match st with
  | [a, b, c, d, e, f, g, h] =>
    let s1 := (rotr32 6 e) ^^^ (rotr32 11 e) ^^^ (rotr32 25 e)
    let ch := (e &&& f) ^^^ ((4294967295 - e) &&& g)
    let t1 := mask32 (h + s1 + ch + kw.1 + kw.2)
    let s0 := (rotr32 2 a) ^^^ (rotr32 13 a) ^^^ (rotr32 22 a)
    let mj := (a &&& b) ^^^ (a &&& c) ^^^ (b &&& c)
    let t2 := mask32 (s0 + mj)
    [mask32 (t1 + t2), a, b, c, mask32 (d + t1), e, f, g]
  | other => other

/-- Compress one 64-byte block into the running hash state. -/
def shaCompress (st : List Nat) (block : List Nat) : List Nat :=
  let w16 := ((listChunks 4 block).map word32OfBytes).reverse
  let w := (shaSchedule w16 48).reverse
  let st1 := (w.zip shaK).foldl shaRound st
  (st.zip st1).map (fun p => mask32 (p.1 + p.2))

/-- Emit a 32-bit word as four big-endian bytes. -/
def bytesOfWord32 (x : Nat) : List Nat :=
  [(x >>> 24) % 256, (x >>> 16) % 256, (x >>> 8) % 256, x % 256]

/-- SHA-256 of a byte list. -/
def sha256 (msg : List Nat) : List Nat :=
  (((listChunks 64 (shaPad msg)).foldl shaCompress shaH0).map bytesOfWord32).flatten

/-! ## Association lists

The canisters' `StableBTreeMap`s are modelled as association lists with
unique keys.  `hex::encode` is injective on byte arrays, so maps keyed by
hex-encoded digests in the sources are keyed here by the digest byte list
itself. -/

/-- Ordered-map lookup. -/
def alookup [DecidableEq α] : List (α × β) → α → Option β
  | [], _ => none
  | (a, b) :: t, k => if a = k then some b else alookup t k

/-- Ordered-map insert (replacing an existing binding). -/
def ainsert [DecidableEq α] : List (α × β) → α → β → List (α × β)
  | [], k, v => [(k, v)]
  | (a, b) :: t, k, v => if a = k then (k, v) :: t else (a, b) :: ainsert t k v

/-- Ordered-map removal (of the first binding with the key). -/
def aremove [DecidableEq α] : List (α × β) → α → List (α × β)
  | [], _ => []
  | (a, b) :: t, k => if a = k then t else (a, b) :: aremove t k

/-- The keys of an association list. -/
def akeys (l : List (α × β)) : List α := l.map Prod.fst

/-- Remove all the listed keys. -/
def aremoveAll [DecidableEq α] (l : List (α × β)) (ks : List α) : List (α × β) :=
  ks.foldl (fun m k => aremove m k) l

/-! ## Storage canister (`src/canister/storage`)

State and operations of the storage replica: the `BLOBS` stable map, the
`TIMEHEAP` stable min-heap and the `TEMP_DIGEST_STATE` incremental hashers.
A hasher (`sha2`'s streaming state) is represented by the byte sequence fed
to it so far; finalizing it is `sha256` of that sequence, which is exactly
the streaming semantics of the crate. -/

/-- `CANISTER_THRESHOLD` of `src/canister/storage/src/config.rs`. -/
def CANISTER_THRESHOLD : Nat := 30240

/-- `Config` of `src/canister/storage/src/config.rs` (the principal-valued
fields, which only gate authorization, are omitted: every modelled call is
made by an authorized caller). -/
structure StorageConfig where
  chunkSize : Nat
  queryResponseSize : Nat
  canisterStorageThreshold : Nat
deriving DecidableEq, Repr

/-- The default storage configuration (`config.rs`). -/
def defaultStorageConfig : StorageConfig :=
  { chunkSize := 1048576, queryResponseSize := 2621440,
    canisterStorageThreshold := CANISTER_THRESHOLD }

/-- `BlobChunk` of `src/canister/storage/src/blob.rs` (and of
`src/icda-core/src/canister_interface/storage.rs`, which adds the `index`
field used by `save_blob`). -/
structure BlobChunk where
  index : Nat
  digest : List Nat
  timestamp : Nat
  total : Nat
  data : List Nat
deriving DecidableEq, Repr

/-- `Blob` of `src/canister/storage/src/blob.rs`: one bounded read window. -/
structure Blob where
  data : List Nat
  next : Option Nat
deriving DecidableEq, Repr

/-- `BlobId` of `src/canister/storage/src/time_heap.rs`. -/
structure BlobId where
  digest : List Nat
  timestamp : Nat
deriving DecidableEq, Repr

/-- The visible outcome of one `save_blob` call: `Ok(())` with or without a
spawned `notify_generate_confirmation`, or the digest-mismatch error. -/
inductive SaveResult where
  | okQuiet : SaveResult
  | okNotify : SaveResult
  | errMismatch : SaveResult
deriving DecidableEq, Repr

/-- The storage replica state. -/
structure StorageState where
  blobs : List (List Nat × List Nat)
  heap : List BlobId
  hashers : List (List Nat × List Nat)
deriving DecidableEq, Repr

/-- The storage replica's initial (empty) state. -/
def emptyStorage : StorageState := { blobs := [], heap := [], hashers := [] }

/-- The minimum of the time heap.  `BlobId`s are ordered by `timestamp`
only (`Ord for BlobId` in `time_heap.rs`); among entries of equal timestamp
the stable heap's choice is unspecified, here the earliest-pushed one. -/
def heapMin : List BlobId → Option BlobId
  | [] => none
  | x :: t =>
    match heapMin t with
    | none => some x
    | some m => some (if m.timestamp < x.timestamp then m else x)

/-- Remove the first occurrence of an element from the heap. -/
def heapRemoveOne : List BlobId → BlobId → List BlobId
  | [], _ => []
  | x :: t, e => if x = e then t else x :: heapRemoveOne t e

/-- Pop the minimum of the time heap. -/
def heapPop (h : List BlobId) : Option (BlobId × List BlobId) :=
  match heapMin h with
  | none => none
  | some m => some (m, heapRemoveOne h m)

/-- `insert_to_time_heap` (`time_heap.rs`): push the id, then pop the
minimum when the heap length exceeds the compile-time `CANISTER_THRESHOLD`
(the configured `canister_storage_threshold` is not consulted). -/
def insertToTimeHeap (heap : List BlobId) (digest : List Nat) (timestamp : Nat) :
    List BlobId × Option BlobId :=
  let h1 := heap ++ [{ digest := digest, timestamp := timestamp }]
  if h1.length > CANISTER_THRESHOLD then
    match heapPop h1 with
    | none => (h1, none)
    | some (m, rest) => (rest, some m)
  else (h1, none)

/-- `update_digest` (`storage/src/lib.rs`): feed the chunk's data to the
digest's running hasher — unless the stored buffer is already longer than
`index * chunk_size`, in which case the chunk is skipped. -/
def updateDigestMap (cfg : StorageConfig) (s : StorageState) (chunk : BlobChunk) :
    List (List Nat × List Nat) :=
  if ((alookup s.blobs chunk.digest).getD []).length > chunk.index * cfg.chunkSize then
    s.hashers
  else
    match alookup s.hashers chunk.digest with
    | some acc => ainsert s.hashers chunk.digest (acc ++ chunk.data)
    | none => ainsert s.hashers chunk.digest chunk.data

/-- `insert_map` (`storage/src/blob.rs`): create an empty buffer for a new
digest (`Vec::with_capacity(total)` has length 0), then append the chunk's
data to the buffer. -/
def insertMap (m : List (List Nat × List Nat)) (chunk : BlobChunk) :
    List (List Nat × List Nat) :=
  let m1 := if (alookup m chunk.digest).isNone then ainsert m chunk.digest [] else m
  ainsert m1 chunk.digest (((alookup m1 chunk.digest).getD []) ++ chunk.data)

/-- Modelled from the spec: `insert_to_store_map`, called by `save_blob`,
is absent from the sources (only `insert_map`, its buffer-mutating body,
survives in `blob.rs`).  Its boolean result — whether the blob is now
complete — follows §4.2.1 of the spec: with `start = index * chunk_size`
and `end = min(start + chunk_size, total_size)`, the blob is complete when
`end == total_size`. -/
def insertToStoreMap (cfg : StorageConfig) (m : List (List Nat × List Nat))
    (chunk : BlobChunk) : List (List Nat × List Nat) × Bool :=
  (insertMap m chunk,
   min (chunk.index * cfg.chunkSize + cfg.chunkSize) chunk.total == chunk.total)

/-- `check_digest` (`storage/src/lib.rs`): remove the digest's hasher and
compare its finalization with the chunk's digest; `false` when no hasher
exists. -/
def checkDigest (hashers : List (List Nat × List Nat)) (digest : List Nat) :
    List (List Nat × List Nat) × Bool :=
  match alookup hashers digest with
  | some acc => (aremove hashers digest, sha256 acc == digest)
  | none => (hashers, false)

/-- The first step of `save_blob` (`storage/src/lib.rs`): when the digest
has no KV entry, push it onto the time heap and — when an entry was
evicted — delete the evicted digest's KV entry (the
`remove_expired_blob_from_map` call, whose body is modelled from the spec:
"its blob removed from the KV"). -/
def saveBlobHeapPhase (s : StorageState) (chunk : BlobChunk) : StorageState :=
  if (alookup s.blobs chunk.digest).isSome then s
  else
    match insertToTimeHeap s.heap chunk.digest chunk.timestamp with
    | (h2, some expired) =>
        { s with heap := h2, blobs := aremove s.blobs expired.digest }
    | (h2, none) => { s with heap := h2 }

/-- The incremental hasher recorded for the chunk's digest after the heap
phase and `update_digest` of one `save_blob` call: the byte stream whose
finalization `check_digest` will compare with the digest. -/
def hasherAfterGuard (cfg : StorageConfig) (s : StorageState) (chunk : BlobChunk) :
    Option (List Nat) :=
  alookup (updateDigestMap cfg (saveBlobHeapPhase s chunk) chunk) chunk.digest

/-- `save_blob` (`storage/src/lib.rs`), for an authorized caller:
time-heap insertion with eviction, incremental digest update, buffer
append, and — on completion — the digest check that either spawns
`notify_generate_confirmation` or deletes the buffer and errors. -/
def saveBlob (cfg : StorageConfig) (s : StorageState) (chunk : BlobChunk) :
    StorageState × SaveResult :=
  let s1 := saveBlobHeapPhase s chunk
  let s2 := { s1 with hashers := updateDigestMap cfg s1 chunk }
  match insertToStoreMap cfg s2.blobs chunk with
  | (blobs3, complete) =>
    let s3 := { s2 with blobs := blobs3 }
    if complete then
      match checkDigest s3.hashers chunk.digest with
      | (hashers4, ok) =>
        if ok then ({ s3 with hashers := hashers4 }, SaveResult.okNotify)
        else
          ({ s3 with hashers := hashers4, blobs := aremove s3.blobs chunk.digest },
           SaveResult.errMismatch)
    else (s3, SaveResult.okQuiet)

/-- Run a sequence of `save_blob` calls, collecting the results. -/
def runSave (cfg : StorageConfig) (s : StorageState) :
    List BlobChunk → StorageState × List SaveResult
  | [] => (s, [])
  | c :: cs =>
    ((runSave cfg (saveBlob cfg s c).1 cs).1,
     (saveBlob cfg s c).2 :: (runSave cfg (saveBlob cfg s c).1 cs).2)

/-- `get_blob` (`storage/src/lib.rs`): the first bounded window. -/
def getBlob (cfg : StorageConfig) (blobs : List (List Nat × List Nat))
    (digest : List Nat) : Blob :=
  match alookup blobs digest with
  | none => { data := [], next := none }
  | some data =>
    if data.length > cfg.queryResponseSize then
      { data := data.take cfg.queryResponseSize, next := some 1 }
    else { data := data, next := none }

/-- `get_blob_with_index` (`storage/src/lib.rs`).  The else-branch slices
`data[query_response_size * index ..]`, which panics when the start is past
the end of the buffer; the panic is modelled as `none`. -/
def getBlobWithIndex (cfg : StorageConfig) (blobs : List (List Nat × List Nat))
    (digest : List Nat) (index : Nat) : Option Blob :=
  match alookup blobs digest with
  | none => some { data := [], next := none }
  | some data =>
    if data.length > cfg.queryResponseSize * (index + 1) then
      some { data := (data.take (cfg.queryResponseSize * (index + 1))).drop
                       (cfg.queryResponseSize * index),
             next := some (index + 1) }
    else if cfg.queryResponseSize * index ≤ data.length then
      some { data := data.drop (cfg.queryResponseSize * index), next := none }
    else none

/-! ## Merkle tree (the `rs_merkle` crate with its `Sha256` hasher)

`MerkleTree::<Sha256>::from_leaves` pairs adjacent nodes, hashing the
concatenation; an unpaired last node is promoted unchanged
(`concat_and_hash(left, None) = left`).  A proof for one leaf collects, per
layer, the sibling hash when the sibling index lies within the layer.
`MerkleProof::root` recomputes a root from the leaf and the proof queue,
deriving the layer widths from the claimed total leaf count; missing proof
hashes are an error (modelled `none`), surplus ones are ignored.
Recursions are fuel-based (the layer count is at most the leaf count) so
the kernel can evaluate them. -/

/-- One layer up: hash adjacent pairs, promote an unpaired last node. -/
def nextLayer : List (List Nat) → List (List Nat)
  | [] => []
  | [x] => [x]
  | x :: y :: rest => sha256 (x ++ y) :: nextLayer rest

/-- Collapse layers to the root (fuel bounds the layer count). -/
def rootFromLayer : Nat → List (List Nat) → Option (List Nat)
  | _, [] => none
  | _, [x] => some x
  | 0, _ :: _ :: _ => none
  | fuel + 1, x :: y :: rest => rootFromLayer fuel (nextLayer (x :: y :: rest))

/-- `MerkleTree::from_leaves(..).root()`. -/
def merkleRoot (leaves : List (List Nat)) : Option (List Nat) :=
  rootFromLayer leaves.length leaves

/-- The proof hashes for a single leaf index, in layer order. -/
def proofHashes : Nat → List (List Nat) → Nat → List (List Nat)
  | _, [], _ => []
  | _, [_], _ => []
  | 0, _ :: _ :: _, _ => []
  | fuel + 1, x :: y :: rest, idx =>
    let layer := x :: y :: rest
    let sib := idx ^^^ 1
    (if sib < layer.length then [layer.getD sib []] else []) ++
      proofHashes fuel (nextLayer layer) (idx / 2)

/-- `MerkleTree::proof(&[leaf_index])` for one leaf. -/
def merkleProofSingle (leaves : List (List Nat)) (leafIndex : Nat) : List (List Nat) :=
  proofHashes leaves.length leaves leafIndex

/-- `MerkleProof::to_bytes`: the concatenated proof hashes. -/
def proofToBytes (hs : List (List Nat)) : List Nat := hs.flatten

/-- `MerkleProof::<Sha256>::try_from(bytes)`: split back into 32-byte
hashes; a length that is not a multiple of 32 is a parse error. -/
def parseProofBytes (bs : List Nat) : Option (List (List Nat)) :=
  if bs.length % 32 == 0 then some (listChunks 32 bs) else none

/-- `MerkleProof::root(&[leaf_index], &[leaf_hash], total_leaves_count)`
for a single leaf: walk up the layers, taking the sibling from the proof
queue whenever the sibling index lies within the layer width, promoting the
node otherwise. -/
def rootFromPartial : Nat → Nat → List Nat → Nat → List (List Nat) → Option (List Nat)
  | _, _, node, 0, _ => some node
  | _, _, node, 1, _ => some node
  | 0, _, node, _, _ => some node
  | fuel + 1, idx, node, width, proof =>
    let sib := idx ^^^ 1
    if sib < width then
      match proof with
      | [] => none
      | h :: rest =>
        rootFromPartial fuel (idx / 2)
          (if idx % 2 == 0 then sha256 (node ++ h) else sha256 (h ++ node))
          ((width + 1) / 2) rest
    else rootFromPartial fuel (idx / 2) node ((width + 1) / 2) proof

/-- `MerkleProof::verify(root, &[leaf_index], &[leaf_hash], total_leaves)`
for a single leaf: recompute the root and compare. -/
def merkleVerifySingle (root : List Nat) (leafIndex : Nat) (leafHash : List Nat)
    (totalLeaves : Nat) (proof : List (List Nat)) : Bool :=
  match rootFromPartial totalLeaves leafIndex leafHash totalLeaves proof with
  | none => false
  | some r => r == root

/-! ## Signature canister (`src/canister/signature`) -/

/-- `Config` of `src/canister/signature/src/confirmation.rs` (authorization
fields omitted; every modelled call is authorized). -/
structure SignerConfig where
  confirmationBatchSize : Nat
  confirmationLiveTime : Nat
deriving DecidableEq, Repr

/-- The default signer configuration: `CONFIRMATION_BATCH_SIZE = 12`,
`CONFIRMATION_LIVE_TIME = 120961` (`confirmation.rs`). -/
def defaultSignerConfig : SignerConfig :=
  { confirmationBatchSize := 12, confirmationLiveTime := 120961 }

/-- `BatchConfirmation` (`confirmation.rs`). -/
structure BatchConfirmation where
  signature : Option String
  root : List Nat
  nodes : List (List Nat)
deriving DecidableEq, Repr

/-- `BatchConfirmation::default()`: no signature, all-zero root, no nodes. -/
def defaultBatchConfirmation : BatchConfirmation :=
  { signature := none, root := List.replicate 32 0, nodes := [] }

/-- `Proof` (`confirmation.rs`). -/
structure MerkleProofParts where
  proofBytes : List Nat
  leafIndex : Nat
  leafDigest : List Nat
deriving DecidableEq, Repr

/-- `Confirmation` (`confirmation.rs`). -/
structure Confirmation where
  root : List Nat
  proof : MerkleProofParts
  signature : String
deriving DecidableEq, Repr

/-- `ConfirmationStatus` (`confirmation.rs`). -/
inductive ConfirmationStatus where
  | Pending : ConfirmationStatus
  | Confirmed : Confirmation → ConfirmationStatus
  | Invalid : ConfirmationStatus
deriving DecidableEq, Repr

/-- The signer state.  The source stores everything in one string-keyed
stable map `INDEX_MAP` holding both the hex-encoded digests (64 characters)
and the distinguished key `"current_index"` (13 characters); the two key
spaces are disjoint, so the current index is modelled as a separate field,
with `BatchIndex::default() = 0` giving `currentIndex`'s initial value. -/
structure SignerState where
  indexMap : List (List Nat × Nat)
  currentIndex : Nat
  batchMap : List (Nat × BatchConfirmation)
deriving DecidableEq, Repr

/-- The signer's initial (empty) state. -/
def emptySigner : SignerState := { indexMap := [], currentIndex := 0, batchMap := [] }

/-- `prune_expired_confirmation` (`signature/src/lib.rs`): at the closure
of `current_batch_index`, when it exceeds `confirmation_live_time`, remove
the batch at `current_batch_index - confirmation_live_time` and the index
entries of its nodes.  The source `.unwrap()`s the expired batch's lookup;
a missing batch is a trap, modelled `none`. -/
def pruneExpiredConfirmation (cfg : SignerConfig) (indexMap : List (List Nat × Nat))
    (batchMap : List (Nat × BatchConfirmation)) (currentBatchIndex : Nat) :
    Option (List (List Nat × Nat) × List (Nat × BatchConfirmation)) :=
  if currentBatchIndex ≤ cfg.confirmationLiveTime then some (indexMap, batchMap)
  else
    match alookup batchMap (currentBatchIndex - cfg.confirmationLiveTime) with
    | none => none
    | some expiredBatch =>
      some (aremoveAll indexMap expiredBatch.nodes,
            aremove batchMap (currentBatchIndex - cfg.confirmationLiveTime))

/-- The batch of the currently open index with `digest` appended to its
nodes (`BATCH_CONFIRMATION ... unwrap_or_default` followed by
`nodes.push(digest)`). -/
def currentBatchPlus (s : SignerState) (digest : List Nat) : BatchConfirmation :=
  let batch := (alookup s.batchMap s.currentIndex).getD defaultBatchConfirmation
  { batch with nodes := batch.nodes ++ [digest] }

/-- The signer state after the index and batch-map insertions of
`insert_digest`, before any batch closure. -/
def signerMid (s : SignerState) (digest : List Nat) : SignerState :=
  { indexMap := ainsert s.indexMap digest s.currentIndex,
    currentIndex := s.currentIndex,
    batchMap := ainsert s.batchMap s.currentIndex (currentBatchPlus s digest) }

/-- `insert_digest` (`signature/src/lib.rs`), for an authorized caller.
Returns the new state and, when the batch just filled, the spawned
`update_signature(batch_index, snapshot)` task.  Traps (`none`) propagate
from `prune_expired_confirmation`; a zero `confirmation_batch_size` would
make the source's `%` panic and is also a trap. -/
def insertDigest (cfg : SignerConfig) (s : SignerState) (digest : List Nat) :
    Option (SignerState × Option (Nat × BatchConfirmation)) :=
  if (alookup s.indexMap digest).isSome then some (s, none)
  else
    let cur := s.currentIndex
    let batch1 := currentBatchPlus s digest
    let mid := signerMid s digest
    if cfg.confirmationBatchSize == 0 then none
    else if batch1.nodes.length % cfg.confirmationBatchSize == 0 then
      match pruneExpiredConfirmation cfg mid.indexMap mid.batchMap cur with
      | none => none
      | some (im2, bm2) =>
        some ({ indexMap := im2, currentIndex := cur + 1, batchMap := bm2 },
              some (cur, batch1))
    else some ({ mid with currentIndex := cur }, none)

/-- `update_signature` (`signature/src/lib.rs`), in the case where the
external `sign_with_ecdsa` call succeeds with `signatureHex`: rebuild the
Merkle tree from the snapshot's nodes, `.unwrap()` its root (a trap — and
`none` here — when the snapshot has no nodes), and store the snapshot back
with the root and signature set. -/
def updateSignature (s : SignerState) (batchIndex : Nat)
    (snapshot : BatchConfirmation) (signatureHex : String) : Option SignerState :=
  match merkleRoot snapshot.nodes with
  | none => none
  | some root =>
    some { s with
           batchMap := ainsert s.batchMap batchIndex
             { snapshot with root := root, signature := some signatureHex } }

/-- `get_confirmation` (`signature/src/lib.rs`).  The batch lookup is
`.unwrap()`ed: a digest indexed to a missing batch is a trap, modelled
`none`. -/
def getConfirmation (s : SignerState) (digest : List Nat) :
    Option ConfirmationStatus :=
  match alookup s.indexMap digest with
  | none => some ConfirmationStatus.Invalid
  | some batchIndex =>
    match alookup s.batchMap batchIndex with
    | none => none
    | some batchConfirmation =>
      match batchConfirmation.signature with
      | none => some ConfirmationStatus.Pending
      | some sig =>
        match batchConfirmation.nodes.findIdx? (fun x => x == digest) with
        | none => some ConfirmationStatus.Invalid
        | some leafIndex =>
          let proofBytes :=
            proofToBytes (merkleProofSingle batchConfirmation.nodes leafIndex)
          some (ConfirmationStatus.Confirmed
            { root := batchConfirmation.root,
              proof := { proofBytes := proofBytes, leafIndex := leafIndex,
                         leafDigest := digest },
              signature := sig })

/-- Run a sequence of `insert_digest` calls, collecting the spawned sign
tasks in order; `none` if any call traps. -/
def runInserts (cfg : SignerConfig) (s : SignerState) :
    List (List Nat) → Option (SignerState × List (Nat × BatchConfirmation))
  | [] => some (s, [])
  | d :: ds =>
    match insertDigest cfg s d with
    | none => none
    | some (s1, task) =>
      match runInserts cfg s1 ds with
      | none => none
      | some (s2, tasks) => some (s2, (task.map (· :: ·)).getD id tasks)

/-- The signer states reachable by sequences of (authorized, successful)
`insert_digest` calls under a fixed configuration, from the empty state. -/
inductive SignerReachable (cfg : SignerConfig) : SignerState → Prop where
  | init : SignerReachable cfg emptySigner
  | step {s s'} {task} (d : List Nat) : SignerReachable cfg s →
      insertDigest cfg s d = some (s', task) → SignerReachable cfg s'

/-! ## Client (`src/icda-core`) -/

/-- `CHUNK_SIZE` (`canister_interface/storage.rs`): 1 MiB. -/
def CHUNK_SIZE : Nat := 1048576

/-- `BLOB_LIVE_TIME` (`icda.rs`): one week in nanoseconds. -/
def BLOB_LIVE_TIME : Nat := 7 * 24 * 60 * 60 * 1000000000

/-- `CONFIRMATION_BATCH_SIZE` (`icda.rs`): 12. -/
def CONFIRMATION_BATCH_SIZE : Nat := 12

/-- The loop of `BlobChunk::split_blob_into_chunks`
(`canister_interface/storage.rs`), parameterized by the chunk size (the
source fixes it to `CHUNK_SIZE`); fuel-based so the kernel evaluates it
(`blob.length` steps always suffice for a positive chunk size). -/
def splitIntoChunksFuel (size : Nat) : Nat → List Nat → List (List Nat)
  | _, [] => []
  | 0, _ :: _ => []
  | fuel + 1, x :: xs => (x :: xs).take size :: splitIntoChunksFuel size fuel ((x :: xs).drop size)

/-- `BlobChunk::split_blob_into_chunks` with an explicit chunk size. -/
def splitBlobIntoChunksWith (size : Nat) (blob : List Nat) : List (List Nat) :=
  splitIntoChunksFuel size blob.length blob

/-- `BlobChunk::split_blob_into_chunks` (`canister_interface/storage.rs`). -/
def splitBlobIntoChunks (blob : List Nat) : List (List Nat) :=
  splitBlobIntoChunksWith CHUNK_SIZE blob

/-- Number the data slices from a starting index. -/
def numberChunks (digest : List Nat) (timestamp : Nat) (total : Nat) :
    Nat → List (List Nat) → List BlobChunk
  | _, [] => []
  | i, d :: ds =>
    { index := i, digest := digest, timestamp := timestamp, total := total,
      data := d } :: numberChunks digest timestamp total (i + 1) ds

/-- `BlobChunk::generate_chunks` with an explicit chunk size. -/
def generateChunksWith (size : Nat) (blob : List Nat) (digest : List Nat)
    (timestamp : Nat) : List BlobChunk :=
  numberChunks digest timestamp blob.length 0 (splitBlobIntoChunksWith size blob)

/-- `BlobChunk::generate_chunks` (`canister_interface/storage.rs`). -/
def generateChunks (blob : List Nat) (digest : List Nat) (timestamp : Nat) :
    List BlobChunk :=
  generateChunksWith CHUNK_SIZE blob digest timestamp

/-- `RoutingInfo` (`canister_interface/storage.rs`); canister principals
are modelled by their textual form. -/
structure RoutingInfo where
  totalSize : Nat
  hostCanisters : List String
deriving DecidableEq, Repr

/-- `BlobKey` (`icda.rs`). -/
structure BlobKey where
  digest : List Nat
  expiryTimestamp : Nat
  routingInfo : RoutingInfo
deriving DecidableEq, Repr

/-- The pure core of `ICDA::push_blob_to_canisters` (`icda.rs`): the
returned `BlobKey` for a blob pushed at `timestamp` to `hosts`. -/
def pushBlobKey (blob : List Nat) (timestamp : Nat) (hosts : List String) : BlobKey :=
  { digest := sha256 blob,
    expiryTimestamp := timestamp + BLOB_LIVE_TIME,
    routingInfo := { totalSize := blob.length, hostCanisters := hosts } }

/-- The chunk stream spawned by `ICDA::push_blob_to_canisters` for each
chosen replica. -/
def pushBlobChunks (blob : List Nat) (timestamp : Nat) : List BlobChunk :=
  generateChunks blob (sha256 blob) timestamp

/-- The `while let Some(next_index)` loop of `ICDA::get_blob_from_canister`
(`icda.rs`); a replica trap (`none` from `get_blob_with_index`) surfaces as
a failed call.  The fuel only bounds the loop formally: each window either
ends the loop or advances the strictly increasing index. -/
def readWindows (cfg : StorageConfig) (blobs : List (List Nat × List Nat))
    (digest : List Nat) : Nat → List Nat → Option Nat → Option (List Nat)
  | _, acc, none => some acc
  | 0, acc, some _ => some acc
  | fuel + 1, acc, some i =>
    match getBlobWithIndex cfg blobs digest i with
    | none => none
    | some b => readWindows cfg blobs digest fuel (acc ++ b.data) b.next

/-- `ICDA::get_blob_from_canister` (`icda.rs`): stream the windows,
reject an empty reassembled buffer, then check the SHA-256 digest. -/
def getBlobFromCanister (cfg : StorageConfig) (blobs : List (List Nat × List Nat))
    (key : BlobKey) : Option (List Nat) :=
  let first := getBlob cfg blobs key.digest
  match readWindows cfg blobs key.digest (key.routingInfo.totalSize + 1)
      first.data first.next with
  | none => none
  | some blob =>
    if blob.isEmpty then none
    else if sha256 blob == key.digest then some blob else none

/-- The spill file name written by `ICDA::push_chunks_to_canister`
(`icda.rs`): `format!("backup/chunk_{}_{}.bin", canister_id, chunk.index)`,
here without the directory part. -/
def pushBackupFileName (canisterId : String) (index : Nat) : String :=
  "chunk_" ++ canisterId ++ "_" ++ toString index ++ ".bin"

/-- `ReUploader::generate_backup_file_name` (`backup.rs`):
`canister_id + "_" + data_type + "_" + now_nanos + ".bin"`. -/
def generateBackupFileName (canisterId : String) (dataType : String)
    (nowNanos : Nat) : String :=
  canisterId ++ "_" ++ dataType ++ "_" ++ toString nowNanos ++ ".bin"

/-- A character of the regex class `[a-z0-9-]`. -/
def isIdChar (c : Char) : Bool := (('a' ≤ c && c ≤ 'z') || c.isDigit || c == '-')

/-- Whether a whole character list matches `[a-z0-9-]+_chunk_\d+\.bin`. -/
def chunkNameExact (cs : List Char) : Bool :=
  (List.range (cs.length + 1)).any (fun i =>
    let pre := cs.take i
    let rest := cs.drop i
    (!pre.isEmpty) && pre.all isIdChar &&
    (List.isPrefixOf "_chunk_".toList rest) &&
    (let r2 := rest.drop 7
     let digits := r2.take (r2.length - 4)
     decide (5 ≤ r2.length) && (!digits.isEmpty) && digits.all Char.isDigit &&
       r2.drop (r2.length - 4) == ".bin".toList))

/-- Whether a string matches the anchored regex `^[a-z0-9-]+_chunk_\d+\.bin$`. -/
def matchesChunkNameAnchored (s : String) : Bool := chunkNameExact s.toList

/-- Whether `Regex::new(r"([a-z0-9-]+)_chunk_\d+\.bin").captures` finds a
match anywhere in the string, as `ReUploader::parse_canister_id_from_file_name`
(`backup.rs`) requires (it panics otherwise). -/
def containsChunkName (s : String) : Bool :=
  let cs := s.toList
  (List.range (cs.length + 1)).any (fun i =>
    (List.range (cs.length - i + 1)).any (fun j =>
      chunkNameExact ((cs.drop i).take j)))

/-- `VerifyResult` (`canister_interface/signature.rs`); the error payload
of `InvalidSignature` is dropped. -/
inductive VerifyResult where
  | InvalidSignature : VerifyResult
  | InvalidProof : VerifyResult
  | Valid : VerifyResult
deriving DecidableEq, Repr

/-- `SignatureCanister::verify_confirmation`
(`canister_interface/signature.rs`), abstracting the secp256k1 signature
check as the oracle `ecdsaOk` over the root and the hex signature: parse
the proof bytes (a panic — `none` — on a bad length) and verify the Merkle
proof with the hard-coded `total_leaves_count` of `6`. -/
def verifyConfirmation (ecdsaOk : List Nat → String → Bool)
    (conf : Confirmation) : Option VerifyResult :=
  if ecdsaOk conf.root conf.signature then
    match parseProofBytes conf.proof.proofBytes with
    | none => none
    | some hashes =>
      if merkleVerifySingle conf.root conf.proof.leafIndex conf.proof.leafDigest
          6 hashes then
        some VerifyResult.Valid
      else some VerifyResult.InvalidProof
  else some VerifyResult.InvalidSignature

/-! ## Signer well-formedness

The inductive invariant of the signer state under `insert_digest`
sequences; it ties the digest index to the batch map and bounds the
surviving batch indices. -/

/-- Well-formedness of a signer state under a fixed configuration. -/
def SignerWF (cfg : SignerConfig) (s : SignerState) : Prop :=
  (akeys s.indexMap).Nodup ∧
  (akeys s.batchMap).Nodup ∧
  (∀ d b, alookup s.indexMap d = some b →
    ∃ batch, alookup s.batchMap b = some batch ∧ batch.nodes.count d = 1) ∧
  (∀ b batch, alookup s.batchMap b = some batch →
    ∀ d, d ∈ batch.nodes → alookup s.indexMap d = some b) ∧
  (∀ d b, alookup s.indexMap d = some b →
    b = 0 ∨ s.currentIndex ≤ b + cfg.confirmationLiveTime) ∧
  (∀ b, b < s.currentIndex → (b = 0 ∨ s.currentIndex ≤ b + cfg.confirmationLiveTime) →
    (alookup s.batchMap b).isSome = true) ∧
  (∀ b batch, alookup s.batchMap b = some batch → b ≤ s.currentIndex)

/-! ## Concrete inputs for the claims -/

/-- Twelve distinct digests filling one batch. -/
def c1Digests : List (List Nat) := (List.range 12).map (fun k => (k + 1) :: List.replicate 31 0)

/-- The batch snapshot handed to the spawned sign task when the batch of
`c1Digests` fills. -/
def c1Snapshot : BatchConfirmation :=
  { signature := none, root := List.replicate 32 0, nodes := c1Digests }

/-- The signer state after inserting `c1Digests`. -/
def c1Inserted : SignerState :=
  ((runInserts defaultSignerConfig emptySigner c1Digests).map Prod.fst).getD emptySigner

/-- The signer state after the spawned sign task also completed. -/
def c1State : SignerState :=
  (updateSignature c1Inserted 0 c1Snapshot "00ff").getD c1Inserted

/-- The first inserted digest. -/
def c1Leaf : List Nat := 1 :: List.replicate 31 0

/-- The confirmation served for `c1Leaf`. -/
def c1Conf : Confirmation :=
  match getConfirmation c1State c1Leaf with
  | some (ConfirmationStatus.Confirmed c) => c
  | _ => { root := [], proof := { proofBytes := [], leafIndex := 0, leafDigest := [] },
           signature := "" }

/-- A storage configuration with one-byte chunks (reachable through
`update_config`; `chunk_size` is a config field of the storage canister). -/
def c2Cfg : StorageConfig :=
  { chunkSize := 1, queryResponseSize := 2621440, canisterStorageThreshold := 30240 }

/-- The digest of the three-byte blob `[1, 2, 3]`. -/
def c2Digest : List Nat := sha256 [1, 2, 3]

/-- Chunk 0 of the blob `[1, 2, 3]` under one-byte chunks. -/
def c2Chunk0 : BlobChunk :=
  { index := 0, digest := c2Digest, timestamp := 42, total := 3, data := [1] }

/-- A crafted chunk for index 2 carrying the bytes `[2, 3]`. -/
def c2Chunk2 : BlobChunk :=
  { index := 2, digest := c2Digest, timestamp := 42, total := 3, data := [2, 3] }

/-- The run delivering chunk 0 twice and then the crafted chunk 2. -/
def c2Run : StorageState × List SaveResult :=
  runSave c2Cfg emptyStorage [c2Chunk0, c2Chunk0, c2Chunk2]

/-- The digest of the two-byte blob `[5, 6]`. -/
def c3Digest : List Nat := sha256 [5, 6]

/-- Chunk 0 of the blob `[5, 6]` under one-byte chunks. -/
def c3C0 : BlobChunk :=
  { index := 0, digest := c3Digest, timestamp := 7, total := 2, data := [5] }

/-- Chunk 1 of the blob `[5, 6]` under one-byte chunks. -/
def c3C1 : BlobChunk :=
  { index := 1, digest := c3Digest, timestamp := 7, total := 2, data := [6] }

/-- The run delivering the two chunks out of order. -/
def c3Run : StorageState × List SaveResult :=
  runSave c2Cfg emptyStorage [c3C1, c3C0]

/-- A signer configuration with one-digest batches and a one-batch live
time (reachable through `update_config`). -/
def c5Cfg : SignerConfig := { confirmationBatchSize := 1, confirmationLiveTime := 1 }

/-- A family of distinct digests. -/
def c5D (k : Nat) : List Nat := k :: List.replicate 31 7

/-- The signer state after inserting `c5D 0`, `c5D 1`, `c5D 2` under
`c5Cfg`: batches 0 and 2 survive, batch 1 was pruned, the open index is 3. -/
def c5State : SignerState :=
  ((runInserts c5Cfg emptySigner [c5D 0, c5D 1, c5D 2]).map Prod.fst).getD emptySigner

/-- A stored digest for the bounded-read claims. -/
def c6Digest : List Nat := List.replicate 32 4

/-- A replica KV holding a one-byte blob under `c6Digest`. -/
def c6Blobs : List (List Nat × List Nat) := [(c6Digest, [7])]

/-- A storage configuration whose `canister_storage_threshold` is 1. -/
def c7Cfg : StorageConfig :=
  { chunkSize := 1, queryResponseSize := 2621440, canisterStorageThreshold := 1 }

/-- A first (incomplete) chunk of one blob. -/
def c7A : BlobChunk :=
  { index := 0, digest := List.replicate 32 1, timestamp := 1, total := 2, data := [0] }

/-- A first (incomplete) chunk of a second blob. -/
def c7B : BlobChunk :=
  { index := 0, digest := List.replicate 32 2, timestamp := 2, total := 2, data := [0] }

/-- A digest for the corrupt-state claim. -/
def c9D : List Nat := List.replicate 32 3

/-- A corrupt signer state: the index maps `c9D` to batch 5 but the batch
map has no batch 5. -/
def c9State : SignerState :=
  { indexMap := [(c9D, 5)], currentIndex := 0, batchMap := [] }

/-- The canister id used in the backup-file-name claims. -/
def c4Cid : String := "hxctj-oiaaa-aaaap-qhltq-cai"

/-- A storage configuration with a one-byte query window (reachable
through `update_config`). -/
def c6Cfg : StorageConfig :=
  { chunkSize := 1, queryResponseSize := 1, canisterStorageThreshold := 30240 }

/-- A replica state whose retention heap is full (exactly
`CANISTER_THRESHOLD` entries) and whose KV is empty. -/
def c7Full : StorageState :=
  { blobs := [], heap := List.replicate CANISTER_THRESHOLD (BlobId.mk [] 0),
    hashers := [] }
/-! ## Lemmas about the association-list operations -/

theorem alookup_ainsert_self [DecidableEq α] (l : List (α × β)) (k : α) (v : β) :
    alookup (ainsert l k v) k = some v := by
  induction l with
  | nil => simp [ainsert, alookup]
  | cons p t ih =>
    rcases p with ⟨a, b⟩
    by_cases h : a = k
    · subst h
      simp [ainsert, alookup]
    · rw [ainsert, if_neg h, alookup, if_neg h]
      exact ih

theorem alookup_ainsert_ne [DecidableEq α] (l : List (α × β)) {k k' : α} (v : β)
    (h : k' ≠ k) : alookup (ainsert l k v) k' = alookup l k' := by
  induction l with
  | nil =>
    simp only [ainsert, alookup]
    rw [if_neg (Ne.symm h)]
  | cons p t ih =>
    rcases p with ⟨a, b⟩
    by_cases ha : a = k
    · subst ha
      rw [ainsert, if_pos rfl]
      simp only [alookup]
      rw [if_neg (Ne.symm h), if_neg (Ne.symm h)]
    · rw [ainsert, if_neg ha]
      simp only [alookup]
      by_cases ha' : a = k'
      · rw [if_pos ha', if_pos ha']
      · rw [if_neg ha', if_neg ha']
        exact ih

theorem alookup_aremove_ne [DecidableEq α] (l : List (α × β)) {k k' : α}
    (h : k' ≠ k) : alookup (aremove l k) k' = alookup l k' := by
  induction l with
  | nil => rw [aremove]
  | cons p t ih =>
    rcases p with ⟨a, b⟩
    by_cases ha : a = k
    · subst ha
      rw [aremove, if_pos rfl, alookup, if_neg (Ne.symm h)]
    · rw [aremove, if_neg ha, alookup, alookup]
      by_cases ha' : a = k'
      · rw [if_pos ha', if_pos ha']
      · rw [if_neg ha', if_neg ha']
        exact ih

theorem alookup_none_iff [DecidableEq α] (l : List (α × β)) (k : α) :
    alookup l k = none ↔ k ∉ akeys l := by
  induction l with
  | nil => simp [alookup, akeys]
  | cons p t ih =>
    rcases p with ⟨a, b⟩
    rw [alookup, akeys, List.map_cons]
    by_cases ha : a = k
    · subst ha
      simp
    · rw [if_neg ha, List.mem_cons]
      constructor
      · intro hn hc
        rcases hc with hc | hc
        · exact ha hc.symm
        · exact (ih.mp hn) (by simpa [akeys] using hc)
      · intro hn
        exact ih.mpr (fun hc => hn (Or.inr (by simpa [akeys] using hc)))

theorem alookup_aremove_self [DecidableEq α] {l : List (α × β)} (k : α)
    (h : (akeys l).Nodup) : alookup (aremove l k) k = none := by
  induction l with
  | nil => rw [aremove, alookup]
  | cons p t ih =>
    rcases p with ⟨a, b⟩
    rw [akeys, List.map_cons, List.nodup_cons] at h
    by_cases ha : a = k
    · subst ha
      rw [aremove, if_pos rfl]
      exact (alookup_none_iff t a).mpr (by simpa [akeys] using h.1)
    · rw [aremove, if_neg ha, alookup, if_neg ha]
      exact ih (by simpa [akeys] using h.2)

theorem alookup_aremove_none [DecidableEq α] {l : List (α × β)} {d : α} (k : α)
    (h : alookup l d = none) : alookup (aremove l k) d = none := by
  induction l with
  | nil => rw [aremove]; exact h
  | cons p t ih =>
    rcases p with ⟨a, b⟩
    by_cases had : a = d
    · rw [alookup, if_pos had] at h
      exact absurd h (by simp)
    · rw [alookup, if_neg had] at h
      by_cases hak : a = k
      · rw [aremove, if_pos hak]
        exact h
      · rw [aremove, if_neg hak, alookup, if_neg had]
        exact ih h

theorem alookup_isSome_of_aremove [DecidableEq α] {l : List (α × β)} {d k : α}
    (h : (alookup (aremove l k) d).isSome = true) :
    (alookup l d).isSome = true := by
  by_cases hd : alookup l d = none
  · rw [alookup_aremove_none k hd] at h
    simp at h
  · rcases Option.ne_none_iff_exists.mp hd with ⟨v, hv⟩
    simp [← hv]

theorem akeys_ainsert_subset [DecidableEq α] (l : List (α × β)) (k : α) (v : β) :
    akeys (ainsert l k v) ⊆ k :: akeys l := by
  induction l with
  | nil =>
    rw [ainsert, akeys, akeys]
    simp
  | cons p t ih =>
    rcases p with ⟨a, b⟩
    by_cases ha : a = k
    · subst ha
      rw [ainsert, if_pos rfl]
      simp only [akeys, List.map_cons]
      intro x hx
      rcases List.mem_cons.mp hx with rfl | hx
      · exact List.mem_cons_self _ _
      · exact List.mem_cons_of_mem _ (List.mem_cons_of_mem _ hx)
    · rw [ainsert, if_neg ha]
      simp only [akeys, List.map_cons]
      intro x hx
      rcases List.mem_cons.mp hx with rfl | hx
      · exact List.mem_cons_of_mem _ (List.mem_cons_self _ _)
      · rcases List.mem_cons.mp (ih hx) with rfl | hx'
        · exact List.mem_cons_self _ _
        · exact List.mem_cons_of_mem _ (List.mem_cons_of_mem _ hx')

theorem akeys_ainsert_nodup [DecidableEq α] {l : List (α × β)} (k : α) (v : β)
    (h : (akeys l).Nodup) : (akeys (ainsert l k v)).Nodup := by
  induction l with
  | nil => simp [ainsert, akeys]
  | cons p t ih =>
    rcases p with ⟨a, b⟩
    rw [akeys, List.map_cons, List.nodup_cons] at h
    by_cases ha : a = k
    · subst ha
      rw [ainsert, if_pos rfl, akeys, List.map_cons, List.nodup_cons]
      exact ⟨by simpa [akeys] using h.1, by simpa [akeys] using h.2⟩
    · rw [ainsert, if_neg ha, akeys, List.map_cons, List.nodup_cons]
      constructor
      · intro hc
        rcases List.mem_cons.mp (akeys_ainsert_subset t k v (by simpa [akeys] using hc)) with h1 | h1
        · exact ha h1
        · exact h.1 (by simpa [akeys] using h1)
      · exact by simpa [akeys] using ih (by simpa [akeys] using h.2)

theorem akeys_aremove_sublist [DecidableEq α] (l : List (α × β)) (k : α) :
    List.Sublist (akeys (aremove l k)) (akeys l) := by
  induction l with
  | nil => rw [aremove]
  | cons p t ih =>
    rcases p with ⟨a, b⟩
    by_cases ha : a = k
    · rw [aremove, if_pos ha]
      simp only [akeys, List.map_cons]
      exact List.Sublist.cons _ (List.Sublist.refl _)
    · rw [aremove, if_neg ha]
      simp only [akeys, List.map_cons]
      exact List.Sublist.cons₂ _ ih

theorem akeys_aremove_nodup [DecidableEq α] {l : List (α × β)} (k : α)
    (h : (akeys l).Nodup) : (akeys (aremove l k)).Nodup :=
  (akeys_aremove_sublist l k).nodup h

theorem alookup_eq_some_mem [DecidableEq α] {l : List (α × β)} {k : α} {v : β}
    (h : alookup l k = some v) : (k, v) ∈ l := by
  induction l with
  | nil => rw [alookup] at h; exact absurd h (by simp)
  | cons p t ih =>
    rcases p with ⟨a, b⟩
    by_cases ha : a = k
    · subst ha
      rw [alookup, if_pos rfl, Option.some.injEq] at h
      subst h
      exact List.mem_cons_self _ _
    · rw [alookup, if_neg ha] at h
      exact List.mem_cons_of_mem _ (ih h)

theorem mem_alookup_of_nodup [DecidableEq α] {l : List (α × β)} {k : α} {v : β}
    (hn : (akeys l).Nodup) (h : (k, v) ∈ l) : alookup l k = some v := by
  induction l with
  | nil => simp at h
  | cons p t ih =>
    rcases p with ⟨a, b⟩
    rw [akeys, List.map_cons, List.nodup_cons] at hn
    rcases List.mem_cons.mp h with h1 | h1
    · rw [Prod.mk.injEq] at h1
      obtain ⟨h1a, h1b⟩ := h1
      rw [alookup, if_pos h1a.symm, h1b]
    · have hmem : k ∈ List.map Prod.fst t := List.mem_map_of_mem Prod.fst h1
      have hk : a ≠ k := by
        intro he
        rw [he] at hn
        exact hn.1 hmem
      rw [alookup, if_neg hk]
      exact ih (by simpa [akeys] using hn.2) h1

theorem alookup_aremoveAll_not_mem [DecidableEq α] {l : List (α × β)}
    {ks : List α} {d : α} (h : d ∉ ks) :
    alookup (aremoveAll l ks) d = alookup l d := by
  induction ks generalizing l with
  | nil => rw [aremoveAll, List.foldl_nil]
  | cons k ks ih =>
    rw [List.mem_cons, not_or] at h
    rw [aremoveAll, List.foldl_cons]
    rw [show List.foldl (fun m k => aremove m k) (aremove l k) ks =
          aremoveAll (aremove l k) ks from rfl, ih h.2,
        alookup_aremove_ne _ h.1]

theorem alookup_aremoveAll_none [DecidableEq α] {l : List (α × β)}
    (ks : List α) {d : α} (h : alookup l d = none) :
    alookup (aremoveAll l ks) d = none := by
  induction ks generalizing l with
  | nil => rw [aremoveAll, List.foldl_nil]; exact h
  | cons k ks ih =>
    rw [aremoveAll, List.foldl_cons]
    exact ih (alookup_aremove_none k h)

theorem akeys_aremoveAll_nodup [DecidableEq α] {l : List (α × β)}
    (ks : List α) (h : (akeys l).Nodup) : (akeys (aremoveAll l ks)).Nodup := by
  induction ks generalizing l with
  | nil => rw [aremoveAll, List.foldl_nil]; exact h
  | cons k ks ih =>
    rw [aremoveAll, List.foldl_cons]
    exact ih (akeys_aremove_nodup k h)

theorem alookup_aremoveAll_mem [DecidableEq α] {l : List (α × β)}
    {ks : List α} {d : α} (hn : (akeys l).Nodup) (h : d ∈ ks) :
    alookup (aremoveAll l ks) d = none := by
  induction ks generalizing l with
  | nil => simp at h
  | cons k ks ih =>
    rw [aremoveAll, List.foldl_cons]
    rcases List.mem_cons.mp h with h1 | h1
    · subst h1
      exact alookup_aremoveAll_none ks (alookup_aremove_self d hn)
    · exact ih (akeys_aremove_nodup k hn) h1

/-! ## Lemmas about the time heap -/

theorem heapMin_isSome {h : List BlobId} (hne : h ≠ []) :
    ∃ m, heapMin h = some m := by
  cases h with
  | nil => exact absurd rfl hne
  | cons x t =>
    rw [heapMin]
    cases heapMin t with
    | none => exact ⟨x, rfl⟩
    | some m => exact ⟨if m.timestamp < x.timestamp then m else x, rfl⟩

theorem heapMin_mem {h : List BlobId} {m : BlobId} (hm : heapMin h = some m) :
    m ∈ h := by
  induction h generalizing m with
  | nil => simp [heapMin] at hm
  | cons x t ih =>
    rw [heapMin] at hm
    cases hmt : heapMin t with
    | none =>
      rw [hmt, Option.some.injEq] at hm
      exact hm ▸ List.mem_cons_self _ _
    | some m' =>
      rw [hmt, Option.some.injEq] at hm
      by_cases hc : m'.timestamp < x.timestamp
      · rw [if_pos hc] at hm
        exact List.mem_cons_of_mem _ (hm ▸ ih hmt)
      · rw [if_neg hc] at hm
        exact hm ▸ List.mem_cons_self _ _

theorem heapMin_le {h : List BlobId} {m : BlobId} (hm : heapMin h = some m) :
    ∀ e ∈ h, m.timestamp ≤ e.timestamp := by
  induction h generalizing m with
  | nil => simp [heapMin] at hm
  | cons x t ih =>
    rw [heapMin] at hm
    intro e he
    cases hmt : heapMin t with
    | none =>
      rw [hmt, Option.some.injEq] at hm
      rcases List.mem_cons.mp he with rfl | he
      · exact hm ▸ Nat.le_refl _
      · cases t with
        | nil => simp at he
        | cons y u => exact absurd hmt (by
            rw [heapMin]
            cases heapMin u <;> simp)
    | some m' =>
      rw [hmt, Option.some.injEq] at hm
      rcases List.mem_cons.mp he with rfl | he
      · by_cases hc : m'.timestamp < e.timestamp
        · rw [if_pos hc] at hm
          exact hm ▸ Nat.le_of_lt hc
        · rw [if_neg hc] at hm
          exact hm ▸ Nat.le_refl _
      · have hle := ih hmt e he
        by_cases hc : m'.timestamp < x.timestamp
        · rw [if_pos hc] at hm
          exact hm ▸ hle
        · rw [if_neg hc] at hm
          exact hm ▸ Nat.le_trans (Nat.le_of_not_lt hc) hle

theorem heapRemoveOne_length {h : List BlobId} {e : BlobId} (he : e ∈ h) :
    (heapRemoveOne h e).length + 1 = h.length := by
  induction h with
  | nil => simp at he
  | cons x t ih =>
    by_cases hx : x = e
    · rw [heapRemoveOne, if_pos hx, List.length_cons]
    · rw [heapRemoveOne, if_neg hx, List.length_cons, List.length_cons]
      rcases List.mem_cons.mp he with rfl | he'
      · exact absurd rfl hx
      · rw [ih he']

theorem heapPop_of_ne_nil {h : List BlobId} (hne : h ≠ []) :
    ∃ m rest, heapPop h = some (m, rest) ∧ rest.length + 1 = h.length ∧
      (∀ e ∈ h, m.timestamp ≤ e.timestamp) := by
  rcases heapMin_isSome hne with ⟨m, hm⟩
  exact ⟨m, heapRemoveOne h m, by rw [heapPop, hm],
    heapRemoveOne_length (heapMin_mem hm), heapMin_le hm⟩

theorem insertToTimeHeap_length_le {heap : List BlobId} (d : List Nat) (ts : Nat)
    (h : heap.length ≤ CANISTER_THRESHOLD) :
    (insertToTimeHeap heap d ts).1.length ≤ CANISTER_THRESHOLD := by
  rw [insertToTimeHeap]
  by_cases hc : (heap ++ [BlobId.mk d ts]).length > CANISTER_THRESHOLD
  · rcases @heapPop_of_ne_nil (heap ++ [BlobId.mk d ts])
        (by simp) with ⟨m, rest, hpop, hlen, _⟩
    rw [if_pos hc, hpop]
    show rest.length ≤ CANISTER_THRESHOLD
    simp only [List.length_append, List.length_cons, List.length_nil] at hlen hc
    omega
  · rw [if_neg hc]
    simp only [List.length_append, List.length_cons, List.length_nil] at hc ⊢
    omega

theorem insertToTimeHeap_no_pop {heap : List BlobId} (d : List Nat) (ts : Nat)
    (h : heap.length + 1 ≤ CANISTER_THRESHOLD) :
    insertToTimeHeap heap d ts = (heap ++ [{ digest := d, timestamp := ts }], none) := by
  rw [insertToTimeHeap, if_neg]
  simp only [List.length_append, List.length_cons, List.length_nil]
  omega

/-! ## Lemmas about `save_blob` and the retention invariant -/

/-- Every KV key has a heap entry. -/
def KVCovered (s : StorageState) : Prop :=
  ∀ d, (alookup s.blobs d).isSome = true → ∃ e, e ∈ s.heap ∧ e.digest = d

theorem saveBlob_heap_shape (cfg : StorageConfig) (s : StorageState)
    (chunk : BlobChunk) :
    (saveBlob cfg s chunk).1.heap = (saveBlobHeapPhase s chunk).heap := by
  simp only [saveBlob]
  split
  · split <;> rfl
  · rfl

theorem saveBlob_heap_le (cfg : StorageConfig) (s : StorageState)
    (chunk : BlobChunk) (h : s.heap.length ≤ CANISTER_THRESHOLD) :
    (saveBlob cfg s chunk).1.heap.length ≤ CANISTER_THRESHOLD := by
  rw [saveBlob_heap_shape, saveBlobHeapPhase]
  by_cases hex : (alookup s.blobs chunk.digest).isSome = true
  · rw [if_pos hex]
    exact h
  · rw [if_neg hex]
    cases hin : insertToTimeHeap s.heap chunk.digest chunk.timestamp with
    | mk h2 expired =>
      have := insertToTimeHeap_length_le chunk.digest chunk.timestamp h
      rw [hin] at this
      cases expired <;> simpa using this

theorem insertMap_lookup_ne (m : List (List Nat × List Nat)) (chunk : BlobChunk)
    {d : List Nat} (h : d ≠ chunk.digest) :
    alookup (insertMap m chunk) d = alookup m d := by
  rw [insertMap]
  by_cases hex : (alookup m chunk.digest).isNone = true
  · rw [if_pos hex, alookup_ainsert_ne _ _ h, alookup_ainsert_ne _ _ h]
  · rw [if_neg hex, alookup_ainsert_ne _ _ h]

theorem saveBlob_blobs_lookup_ne (cfg : StorageConfig) (s : StorageState)
    (chunk : BlobChunk) {d : List Nat} (h : d ≠ chunk.digest) :
    alookup (saveBlob cfg s chunk).1.blobs d =
      alookup (saveBlobHeapPhase s chunk).blobs d := by
  simp only [saveBlob, insertToStoreMap]
  split
  · split
    · exact insertMap_lookup_ne _ _ h
    · show alookup
          (aremove (insertMap (saveBlobHeapPhase s chunk).blobs chunk) chunk.digest) d = _
      rw [alookup_aremove_ne _ h, insertMap_lookup_ne _ _ h]
  · exact insertMap_lookup_ne _ _ h

theorem saveBlob_covered_step (cfg : StorageConfig) (s : StorageState)
    (chunk : BlobChunk) (hcov : KVCovered s)
    (hlen : s.heap.length + 1 ≤ CANISTER_THRESHOLD) :
    KVCovered (saveBlob cfg s chunk).1 ∧
      (saveBlob cfg s chunk).1.heap.length ≤ s.heap.length + 1 := by
  by_cases hex : (alookup s.blobs chunk.digest).isSome = true
  · have hphase : saveBlobHeapPhase s chunk = s := by
      rw [saveBlobHeapPhase, if_pos hex]
    constructor
    · intro d hd
      by_cases hdc : d = chunk.digest
      · subst hdc
        rcases hcov chunk.digest hex with ⟨e, he, hed⟩
        exact ⟨e, by rw [saveBlob_heap_shape, hphase]; exact he, hed⟩
      · rw [saveBlob_blobs_lookup_ne cfg s chunk hdc, hphase] at hd
        rcases hcov d hd with ⟨e, he, hed⟩
        exact ⟨e, by rw [saveBlob_heap_shape, hphase]; exact he, hed⟩
    · rw [saveBlob_heap_shape, hphase]
      omega
  · have hphase : saveBlobHeapPhase s chunk =
        { s with heap := s.heap ++ [BlobId.mk chunk.digest chunk.timestamp] } := by
      rw [saveBlobHeapPhase, if_neg hex, insertToTimeHeap_no_pop _ _ hlen]
    constructor
    · intro d hd
      by_cases hdc : d = chunk.digest
      · subst hdc
        refine ⟨BlobId.mk chunk.digest chunk.timestamp, ?_, rfl⟩
        rw [saveBlob_heap_shape, hphase]
        simp
      · rw [saveBlob_blobs_lookup_ne cfg s chunk hdc, hphase] at hd
        rcases hcov d hd with ⟨e, he, hed⟩
        refine ⟨e, ?_, hed⟩
        rw [saveBlob_heap_shape, hphase]
        exact List.mem_append_left _ he
    · rw [saveBlob_heap_shape, hphase]
      simp

theorem runSave_heap_le (cfg : StorageConfig) (chunks : List BlobChunk) :
    ∀ s : StorageState, s.heap.length ≤ CANISTER_THRESHOLD →
      (runSave cfg s chunks).1.heap.length ≤ CANISTER_THRESHOLD := by
  induction chunks with
  | nil => intro s h; exact h
  | cons c cs ih =>
    intro s h
    rw [runSave]
    exact ih (saveBlob cfg s c).1 (saveBlob_heap_le cfg s c h)

theorem runSave_covered (cfg : StorageConfig) (chunks : List BlobChunk) :
    ∀ s : StorageState, KVCovered s →
      s.heap.length + chunks.length ≤ CANISTER_THRESHOLD →
      KVCovered (runSave cfg s chunks).1 := by
  induction chunks with
  | nil => intro s h _; exact h
  | cons c cs ih =>
    intro s h hlen
    rw [runSave]
    rw [List.length_cons] at hlen
    have hstep := saveBlob_covered_step cfg s c h (by omega)
    refine ih (saveBlob cfg s c).1 hstep.1 ?_
    have := hstep.2
    omega

theorem saveBlob_evicts (cfg : StorageConfig) (s : StorageState) (chunk : BlobChunk)
    (hnod : (akeys s.blobs).Nodup)
    (habs : alookup s.blobs chunk.digest = none)
    (hfull : s.heap.length = CANISTER_THRESHOLD) :
    ∃ m rest, heapPop (s.heap ++ [BlobId.mk chunk.digest chunk.timestamp]) = some (m, rest) ∧
      (∀ e ∈ s.heap ++ [BlobId.mk chunk.digest chunk.timestamp], m.timestamp ≤ e.timestamp) ∧
      (saveBlob cfg s chunk).1.heap = rest ∧
      (m.digest ≠ chunk.digest →
        alookup (saveBlob cfg s chunk).1.blobs m.digest = none) := by
  rcases @heapPop_of_ne_nil (s.heap ++ [BlobId.mk chunk.digest chunk.timestamp])
      (by simp) with ⟨m, rest, hpop, hlen, hmin⟩
  have hphase : saveBlobHeapPhase s chunk =
      { s with heap := rest, blobs := aremove s.blobs m.digest } := by
    rw [saveBlobHeapPhase, if_neg (by rw [habs]; simp), insertToTimeHeap,
        if_pos (by simp only [List.length_append, List.length_cons, List.length_nil]; omega),
        hpop]
  refine ⟨m, rest, hpop, hmin, ?_, ?_⟩
  · rw [saveBlob_heap_shape, hphase]
  · intro hm
    rw [saveBlob_blobs_lookup_ne cfg s chunk hm, hphase]
    exact alookup_aremove_self m.digest hnod

/-! ## Lemmas about the signer invariant -/

theorem alookup_ainsert_isSome [DecidableEq α] {l : List (α × β)} {b : α}
    (k : α) (v : β) (h : (alookup l b).isSome = true) :
    (alookup (ainsert l k v) b).isSome = true := by
  by_cases hbk : b = k
  · subst hbk
    rw [alookup_ainsert_self]
    rfl
  · rw [alookup_ainsert_ne _ _ hbk]
    exact h

theorem signerWF_empty (cfg : SignerConfig) : SignerWF cfg emptySigner := by
  refine ⟨?_, ?_, ?_, ?_, ?_, ?_, ?_⟩ <;>
    simp [emptySigner, akeys, alookup]

theorem signerWF_mid (cfg : SignerConfig) (s : SignerState) (d : List Nat)
    (hwf : SignerWF cfg s) (hnone : alookup s.indexMap d = none) :
    SignerWF cfg (signerMid s d) := by
  obtain ⟨hN1, hN2, hW1, hW2, hW3, hW4, hW5⟩ := hwf
  have hbatch_nodes : ∀ d', d' ∈ ((alookup s.batchMap s.currentIndex).getD
      defaultBatchConfirmation).nodes → alookup s.indexMap d' = some s.currentIndex := by
    intro d' hd'
    cases hb : alookup s.batchMap s.currentIndex with
    | none =>
      rw [hb] at hd'
      simp [defaultBatchConfirmation] at hd'
    | some b0 =>
      rw [hb] at hd'
      exact hW2 _ _ hb d' hd'
  have hd_not_in : d ∉ ((alookup s.batchMap s.currentIndex).getD
      defaultBatchConfirmation).nodes := by
    intro hc
    rw [hbatch_nodes d hc] at hnone
    cases hnone
  refine ⟨?_, ?_, ?_, ?_, ?_, ?_, ?_⟩
  · exact akeys_ainsert_nodup _ _ hN1
  · exact akeys_ainsert_nodup _ _ hN2
  · -- every index entry points to an existing batch holding it exactly once
    intro d' b' hd'
    by_cases hdd : d' = d
    · subst hdd
      rw [show (signerMid s d').indexMap = ainsert s.indexMap d' s.currentIndex from rfl,
          alookup_ainsert_self, Option.some.injEq] at hd'
      refine ⟨currentBatchPlus s d', ?_, ?_⟩
      · rw [← hd']
        exact alookup_ainsert_self _ _ _
      · rw [currentBatchPlus]
        simp only [List.count_append]
        rw [List.count_eq_zero.mpr hd_not_in]
        simp
    · rw [show (signerMid s d).indexMap = ainsert s.indexMap d s.currentIndex from rfl,
          alookup_ainsert_ne _ _ hdd] at hd'
      rcases hW1 d' b' hd' with ⟨batchB, hb, hcount⟩
      by_cases hbc : b' = s.currentIndex
      · subst hbc
        refine ⟨currentBatchPlus s d, alookup_ainsert_self _ _ _, ?_⟩
        rw [currentBatchPlus, hb]
        simp only [Option.getD_some, List.count_append]
        rw [hcount, List.count_eq_zero.mpr (by simp only [List.mem_singleton]; exact hdd)]
      · exact ⟨batchB, by
          rw [show (signerMid s d).batchMap =
                ainsert s.batchMap s.currentIndex (currentBatchPlus s d) from rfl,
              alookup_ainsert_ne _ _ hbc]
          exact hb, hcount⟩
  · -- every node of an existing batch is indexed to that batch
    intro b' batch' hb' d'' hmem
    by_cases hbc : b' = s.currentIndex
    · subst hbc
      rw [show (signerMid s d).batchMap =
            ainsert s.batchMap s.currentIndex (currentBatchPlus s d) from rfl,
          alookup_ainsert_self, Option.some.injEq] at hb'
      rw [← hb'] at hmem
      rw [currentBatchPlus] at hmem
      simp only [List.mem_append, List.mem_singleton] at hmem
      rcases hmem with hmem | rfl
      · have hidx := hbatch_nodes d'' hmem
        have hne : d'' ≠ d := by
          intro he
          rw [he, hnone] at hidx
          cases hidx
        rw [show (signerMid s d).indexMap = ainsert s.indexMap d s.currentIndex from rfl,
            alookup_ainsert_ne _ _ hne]
        exact hidx
      · exact alookup_ainsert_self _ _ _
    · rw [show (signerMid s d).batchMap =
            ainsert s.batchMap s.currentIndex (currentBatchPlus s d) from rfl,
          alookup_ainsert_ne _ _ hbc] at hb'
      have hidx := hW2 _ _ hb' d'' hmem
      have hne : d'' ≠ d := by
        intro he
        rw [he, hnone] at hidx
        cases hidx
      rw [show (signerMid s d).indexMap = ainsert s.indexMap d s.currentIndex from rfl,
          alookup_ainsert_ne _ _ hne]
      exact hidx
  · -- surviving entries are recent or genesis
    intro d' b' hd'
    by_cases hdd : d' = d
    · subst hdd
      rw [show (signerMid s d').indexMap = ainsert s.indexMap d' s.currentIndex from rfl,
          alookup_ainsert_self, Option.some.injEq] at hd'
      right
      rw [← hd']
      exact Nat.le_add_right _ _
    · rw [show (signerMid s d).indexMap = ainsert s.indexMap d s.currentIndex from rfl,
          alookup_ainsert_ne _ _ hdd] at hd'
      exact hW3 d' b' hd'
  · -- recent batches are present
    intro b hb hcond
    exact alookup_ainsert_isSome _ _ (hW4 b hb hcond)
  · -- batch indices never exceed the open index
    intro b' batch' hb'
    by_cases hbc : b' = s.currentIndex
    · exact hbc.le
    · rw [show (signerMid s d).batchMap =
            ainsert s.batchMap s.currentIndex (currentBatchPlus s d) from rfl,
          alookup_ainsert_ne _ _ hbc] at hb'
      exact hW5 _ _ hb'

theorem signerWF_close_noprune (cfg : SignerConfig) (m : SignerState)
    (hwf : SignerWF cfg m) (hle : m.currentIndex ≤ cfg.confirmationLiveTime)
    (hcur : (alookup m.batchMap m.currentIndex).isSome = true) :
    SignerWF cfg { m with currentIndex := m.currentIndex + 1 } := by
  obtain ⟨hN1, hN2, hW1, hW2, hW3, hW4, hW5⟩ := hwf
  refine ⟨hN1, hN2, hW1, hW2, ?_, ?_, ?_⟩
  · intro d' b' hd'
    rcases hW1 d' b' hd' with ⟨batchB, hbB, _⟩
    have hb5 := hW5 _ _ hbB
    have h3 := hW3 d' b' hd'
    show b' = 0 ∨ m.currentIndex + 1 ≤ b' + cfg.confirmationLiveTime
    rcases h3 with h3 | h3 <;> omega
  · intro b hb hcond
    show (alookup m.batchMap b).isSome = true
    by_cases hbc : b = m.currentIndex
    · subst hbc
      exact hcur
    · refine hW4 b (by
        show b < m.currentIndex
        have : b < m.currentIndex + 1 := hb
        omega) ?_
      rcases hcond with hcond | hcond
      · exact Or.inl hcond
      · exact Or.inr (by omega)
  · intro b' batch' hb'
    exact Nat.le_succ_of_le (hW5 _ _ hb')

theorem signerWF_close_prune (cfg : SignerConfig) (m : SignerState)
    (hwf : SignerWF cfg m) (hgt : cfg.confirmationLiveTime < m.currentIndex)
    (hcur : (alookup m.batchMap m.currentIndex).isSome = true)
    (expBatch : BatchConfirmation)
    (hexp : alookup m.batchMap (m.currentIndex - cfg.confirmationLiveTime) =
      some expBatch) :
    SignerWF cfg
      { indexMap := aremoveAll m.indexMap expBatch.nodes,
        currentIndex := m.currentIndex + 1,
        batchMap := aremove m.batchMap (m.currentIndex - cfg.confirmationLiveTime) } := by
  obtain ⟨hN1, hN2, hW1, hW2, hW3, hW4, hW5⟩ := hwf
  have hexp1 : 1 ≤ m.currentIndex - cfg.confirmationLiveTime := by omega
  have hsurv : ∀ d' b',
      alookup (aremoveAll m.indexMap expBatch.nodes) d' = some b' →
      d' ∉ expBatch.nodes ∧ alookup m.indexMap d' = some b' := by
    intro d' b' hd'
    by_cases hm : d' ∈ expBatch.nodes
    · rw [alookup_aremoveAll_mem hN1 hm] at hd'
      cases hd'
    · rw [alookup_aremoveAll_not_mem hm] at hd'
      exact ⟨hm, hd'⟩
  have hbne : ∀ d' b', d' ∉ expBatch.nodes → alookup m.indexMap d' = some b' →
      b' ≠ m.currentIndex - cfg.confirmationLiveTime := by
    intro d' b' hnm hold he
    subst he
    rcases hW1 d' _ hold with ⟨batchB, hbB, hcnt⟩
    rw [hexp, Option.some.injEq] at hbB
    rw [← hbB] at hcnt
    rw [List.count_eq_zero.mpr hnm] at hcnt
    exact absurd hcnt (by decide)
  refine ⟨?_, ?_, ?_, ?_, ?_, ?_, ?_⟩
  · exact akeys_aremoveAll_nodup _ hN1
  · exact akeys_aremove_nodup _ hN2
  · intro d' b' hd'
    obtain ⟨hnm, hold⟩ := hsurv d' b' hd'
    rcases hW1 d' b' hold with ⟨batchB, hbB, hcnt⟩
    refine ⟨batchB, ?_, hcnt⟩
    rw [alookup_aremove_ne _ (hbne d' b' hnm hold)]
    exact hbB
  · intro b' batch' hb' d'' hmem
    have hbne' : b' ≠ m.currentIndex - cfg.confirmationLiveTime := by
      intro he
      subst he
      rw [alookup_aremove_self _ hN2] at hb'
      cases hb'
    rw [alookup_aremove_ne _ hbne'] at hb'
    have hidx := hW2 _ _ hb' d'' hmem
    have hnm : d'' ∉ expBatch.nodes := by
      intro hc
      have := hW2 _ _ hexp d'' hc
      rw [hidx, Option.some.injEq] at this
      exact hbne' this
    rw [alookup_aremoveAll_not_mem hnm]
    exact hidx
  · intro d' b' hd'
    obtain ⟨hnm, hold⟩ := hsurv d' b' hd'
    have h3 := hW3 d' b' hold
    have hne := hbne d' b' hnm hold
    show b' = 0 ∨ m.currentIndex + 1 ≤ b' + cfg.confirmationLiveTime
    rcases h3 with h3 | h3
    · exact Or.inl h3
    · right
      rcases Nat.lt_or_ge m.currentIndex (b' + cfg.confirmationLiveTime) with hlt | hge
      · omega
      · exact absurd (by omega) hne
  · intro b hb hcond
    have hble : b < m.currentIndex + 1 := hb
    have hcond' : b = 0 ∨ m.currentIndex + 1 ≤ b + cfg.confirmationLiveTime := hcond
    have hbne' : b ≠ m.currentIndex - cfg.confirmationLiveTime := by
      rcases hcond' with hcond' | hcond' <;> omega
    show (alookup (aremove m.batchMap (m.currentIndex - cfg.confirmationLiveTime))
        b).isSome = true
    rw [alookup_aremove_ne _ hbne']
    by_cases hbc : b = m.currentIndex
    · subst hbc
      exact hcur
    · refine hW4 b (by omega) ?_
      rcases hcond' with hcond' | hcond'
      · exact Or.inl hcond'
      · exact Or.inr (by omega)
  · intro b' batch' hb'
    have hbne' : b' ≠ m.currentIndex - cfg.confirmationLiveTime := by
      intro he
      subst he
      rw [alookup_aremove_self _ hN2] at hb'
      cases hb'
    rw [alookup_aremove_ne _ hbne'] at hb'
    exact Nat.le_succ_of_le (hW5 _ _ hb')

theorem signerMid_batch_isSome (s : SignerState) (d : List Nat) :
    (alookup (signerMid s d).batchMap (signerMid s d).currentIndex).isSome = true := by
  show (alookup (ainsert s.batchMap s.currentIndex (currentBatchPlus s d))
      s.currentIndex).isSome = true
  rw [alookup_ainsert_self]
  rfl

theorem signerWF_step (cfg : SignerConfig) (s : SignerState) (d : List Nat)
    {s' : SignerState} {task : Option (Nat × BatchConfirmation)}
    (hwf : SignerWF cfg s) (h : insertDigest cfg s d = some (s', task)) :
    SignerWF cfg s' := by
  rw [insertDigest] at h
  by_cases hex : (alookup s.indexMap d).isSome = true
  · rw [if_pos hex, Option.some.injEq, Prod.mk.injEq] at h
    rw [← h.1]
    exact hwf
  · have hnone : alookup s.indexMap d = none := by
      cases hl : alookup s.indexMap d with
      | none => rfl
      | some v => exact absurd (by rw [hl]; rfl) hex
    rw [if_neg hex] at h
    have hmid := signerWF_mid cfg s d hwf hnone
    by_cases hbz : (cfg.confirmationBatchSize == 0) = true
    · rw [if_pos hbz] at h
      cases h
    · rw [if_neg hbz] at h
      by_cases hfull :
          ((currentBatchPlus s d).nodes.length % cfg.confirmationBatchSize == 0) = true
      · rw [if_pos hfull, pruneExpiredConfirmation] at h
        by_cases hle : s.currentIndex ≤ cfg.confirmationLiveTime
        · rw [if_pos hle] at h
          rw [Option.some.injEq, Prod.mk.injEq] at h
          rw [← h.1]
          exact signerWF_close_noprune cfg (signerMid s d) hmid hle
            (signerMid_batch_isSome s d)
        · rw [if_neg hle] at h
          cases hexp : alookup (signerMid s d).batchMap
              (s.currentIndex - cfg.confirmationLiveTime) with
          | none =>
            rw [hexp] at h
            cases h
          | some expBatch =>
            rw [hexp] at h
            rw [Option.some.injEq, Prod.mk.injEq] at h
            rw [← h.1]
            exact signerWF_close_prune cfg (signerMid s d) hmid
              (by show cfg.confirmationLiveTime < s.currentIndex; omega)
              (signerMid_batch_isSome s d) expBatch hexp
      · rw [if_neg hfull, Option.some.injEq, Prod.mk.injEq] at h
        rw [← h.1]
        exact hmid

theorem signerWF_reachable (cfg : SignerConfig) (s : SignerState)
    (h : SignerReachable cfg s) : SignerWF cfg s := by
  induction h with
  | init => exact signerWF_empty cfg
  | step d hr hstep ih => exact signerWF_step cfg _ d ih hstep

theorem sum_counts_le_one (d : List Nat) (c : Nat) :
    ∀ l : List (Nat × BatchConfirmation), (akeys l).Nodup →
      (∀ b batch, (b, batch) ∈ l → 0 < batch.nodes.count d → b = c) →
      (∀ b batch, (b, batch) ∈ l → batch.nodes.count d ≤ 1) →
      (l.map (fun e => e.2.nodes.count d)).sum ≤ 1 := by
  intro l
  induction l with
  | nil => intro _ _ _; simp
  | cons p t ih =>
    rcases p with ⟨b0, batch0⟩
    intro hnod hsame hle
    rw [akeys, List.map_cons, List.nodup_cons] at hnod
    rw [List.map_cons, List.sum_cons]
    by_cases h0 : batch0.nodes.count d = 0
    · rw [h0]
      simp only [Nat.zero_add]
      exact ih (by simpa [akeys] using hnod.2)
        (fun b batch hm => hsame b batch (List.mem_cons_of_mem _ hm))
        (fun b batch hm => hle b batch (List.mem_cons_of_mem _ hm))
    · have hb0 : b0 = c := hsame b0 batch0 (List.mem_cons_self _ _) (Nat.pos_of_ne_zero h0)
      have htail : ∀ x ∈ t.map (fun e => e.2.nodes.count d), x = 0 := by
        intro x hx
        rcases List.mem_map.mp hx with ⟨⟨b, batch⟩, hmem, hxe⟩
        by_cases hz : batch.nodes.count d = 0
        · rw [← hxe]
          exact hz
        · have hb : b = c := hsame b batch (List.mem_cons_of_mem _ hmem)
            (Nat.pos_of_ne_zero hz)
          have hbmem : b0 ∈ List.map Prod.fst t := by
            rw [hb0, ← hb]
            exact List.mem_map_of_mem Prod.fst hmem
          exact absurd hbmem (by simpa using hnod.1)
      rw [List.sum_eq_zero htail]
      have hle0 : batch0.nodes.count d ≤ 1 := hle b0 batch0 (List.mem_cons_self _ _)
      show batch0.nodes.count d + 0 ≤ 1
      omega

theorem signerWF_global_once (cfg : SignerConfig) (s : SignerState)
    (hwf : SignerWF cfg s) (d : List Nat) :
    (s.batchMap.map (fun e => e.2.nodes.count d)).sum ≤ 1 := by
  obtain ⟨hN1, hN2, hW1, hW2, hW3, hW4, hW5⟩ := hwf
  refine sum_counts_le_one d ((alookup s.indexMap d).getD 0) s.batchMap hN2 ?_ ?_
  · intro b batch hm hpos
    have hmem : d ∈ batch.nodes := by
      by_contra hc
      rw [List.count_eq_zero.mpr hc] at hpos
      exact Nat.lt_irrefl 0 hpos
    have hidx := hW2 b batch (mem_alookup_of_nodup hN2 hm) d hmem
    rw [hidx]
    rfl
  · intro b batch hm
    by_cases hmem : d ∈ batch.nodes
    · have hidx := hW2 b batch (mem_alookup_of_nodup hN2 hm) d hmem
      rcases hW1 d b hidx with ⟨batch', hb', hcnt⟩
      rw [mem_alookup_of_nodup hN2 hm, Option.some.injEq] at hb'
      rw [← hb'] at hcnt
      exact hcnt.le
    · rw [List.count_eq_zero.mpr hmem]
      exact Nat.zero_le 1

/-! ## In-order delivery lemmas for `save_blob` -/

theorem saveBlob_step_mid (cfg : StorageConfig) (dg pre data : List Nat)
    (ts total i : Nat) (H : List BlobId)
    (hguard : ¬ pre.length > i * cfg.chunkSize)
    (hnc : (min (i * cfg.chunkSize + cfg.chunkSize) total == total) = false) :
    saveBlob cfg { blobs := [(dg, pre)], heap := H, hashers := [(dg, pre)] }
      { index := i, digest := dg, timestamp := ts, total := total, data := data }
    = ({ blobs := [(dg, pre ++ data)], heap := H, hashers := [(dg, pre ++ data)] },
       SaveResult.okQuiet) := by
  simp [saveBlob, saveBlobHeapPhase, updateDigestMap, insertMap, insertToStoreMap,
    checkDigest, alookup, ainsert, hguard, hnc]

theorem saveBlob_step_last (cfg : StorageConfig) (dg pre data : List Nat)
    (ts total i : Nat) (H : List BlobId)
    (hguard : ¬ pre.length > i * cfg.chunkSize)
    (hc : (min (i * cfg.chunkSize + cfg.chunkSize) total == total) = true)
    (hok : (sha256 (pre ++ data) == dg) = true) :
    saveBlob cfg { blobs := [(dg, pre)], heap := H, hashers := [(dg, pre)] }
      { index := i, digest := dg, timestamp := ts, total := total, data := data }
    = ({ blobs := [(dg, pre ++ data)], heap := H, hashers := [] },
       SaveResult.okNotify) := by
  simp [saveBlob, saveBlobHeapPhase, updateDigestMap, insertMap, insertToStoreMap,
    checkDigest, alookup, ainsert, aremove, hguard, hc, hok]

theorem saveBlob_first_mid (cfg : StorageConfig) (dg data : List Nat)
    (ts total : Nat) (hnc : ¬ total ≤ cfg.chunkSize) :
    saveBlob cfg emptyStorage
      { index := 0, digest := dg, timestamp := ts, total := total, data := data }
    = ({ blobs := [(dg, data)], heap := [BlobId.mk dg ts], hashers := [(dg, data)] },
       SaveResult.okQuiet) := by
  simp [saveBlob, saveBlobHeapPhase, emptyStorage, insertToTimeHeap, CANISTER_THRESHOLD,
    updateDigestMap, insertMap, insertToStoreMap, checkDigest, alookup, ainsert, hnc]

theorem saveBlob_first_last (cfg : StorageConfig) (dg data : List Nat)
    (ts total : Nat) (hc : total ≤ cfg.chunkSize) (hok : sha256 data = dg) :
    saveBlob cfg emptyStorage
      { index := 0, digest := dg, timestamp := ts, total := total, data := data }
    = ({ blobs := [(dg, data)], heap := [BlobId.mk dg ts], hashers := [] },
       SaveResult.okNotify) := by
  simp [saveBlob, saveBlobHeapPhase, emptyStorage, insertToTimeHeap, CANISTER_THRESHOLD,
    updateDigestMap, insertMap, insertToStoreMap, checkDigest, alookup, ainsert, aremove,
    hc, hok]

theorem splitIntoChunksFuel_nil (S fuel : Nat) :
    splitIntoChunksFuel S fuel ([] : List Nat) = [] := by
  cases fuel <;> rfl

theorem splitIntoChunksFuel_length_pos (S : Nat) :
    ∀ (fuel : Nat) (rest : List Nat), rest ≠ [] → rest.length ≤ fuel →
      0 < (splitIntoChunksFuel S fuel rest).length := by
  intro fuel rest h hl
  cases rest with
  | nil => exact absurd rfl h
  | cons x xs =>
    cases fuel with
    | zero => simp at hl
    | succ f =>
      rw [splitIntoChunksFuel]
      simp

theorem runSave_inorder_aux (cfg : StorageConfig) (B : List Nat) (ts : Nat)
    (hS : 0 < cfg.chunkSize) :
    ∀ (fuel : Nat) (rest : List Nat) (i : Nat) (H : List BlobId),
      rest ≠ [] → rest.length ≤ fuel → rest = B.drop (i * cfg.chunkSize) →
      runSave cfg
        { blobs := [(sha256 B, B.take (i * cfg.chunkSize))], heap := H,
          hashers := [(sha256 B, B.take (i * cfg.chunkSize))] }
        (numberChunks (sha256 B) ts B.length i
          (splitIntoChunksFuel cfg.chunkSize fuel rest))
      = ({ blobs := [(sha256 B, B)], heap := H, hashers := [] },
         List.replicate ((splitIntoChunksFuel cfg.chunkSize fuel rest).length - 1)
           SaveResult.okQuiet ++ [SaveResult.okNotify]) := by
  intro fuel
  induction fuel with
  | zero =>
    intro rest i H hne hlen _
    cases rest with
    | nil => exact absurd rfl hne
    | cons x xs => simp at hlen
  | succ f ih =>
    intro rest i H hne hlen hdrop
    cases rest with
    | nil => exact absurd rfl hne
    | cons x xs =>
      have hiS_lt : i * cfg.chunkSize < B.length := by
        by_contra hc
        push_neg at hc
        have hnil := List.drop_eq_nil_of_le hc
        rw [← hdrop] at hnil
        cases hnil
      have hpre_len : (B.take (i * cfg.chunkSize)).length = i * cfg.chunkSize := by
        rw [List.length_take]
        omega
      have htot : B.length = i * cfg.chunkSize + (x :: xs).length := by
        have hsplit := List.take_append_drop (i * cfg.chunkSize) B
        rw [← hdrop] at hsplit
        have hlen2 := congrArg List.length hsplit
        rw [List.length_append, hpre_len] at hlen2
        omega
      rw [splitIntoChunksFuel, numberChunks, runSave]
      by_cases hlast : (x :: xs).length ≤ cfg.chunkSize
      · have htake : (x :: xs).take cfg.chunkSize = x :: xs :=
          List.take_of_length_le hlast
        have hdropS : (x :: xs).drop cfg.chunkSize = [] :=
          List.drop_eq_nil_of_le hlast
        have hpredata :
            B.take (i * cfg.chunkSize) ++ (x :: xs).take cfg.chunkSize = B := by
          rw [htake, hdrop]
          exact List.take_append_drop _ _
        have hstep := saveBlob_step_last cfg (sha256 B) (B.take (i * cfg.chunkSize))
          ((x :: xs).take cfg.chunkSize) ts B.length i H
          (by rw [hpre_len]; exact Nat.lt_irrefl _)
          (by
            rw [beq_iff_eq, Nat.min_eq_right]
            omega)
          (by rw [hpredata]; exact beq_self_eq_true _)
        rw [hstep, hdropS]
        rw [splitIntoChunksFuel_nil]
        rw [show numberChunks (sha256 B) ts B.length (i + 1) ([] : List (List Nat)) =
              [] from rfl]
        rw [runSave, hpredata]
        simp
      · push_neg at hlast
        have hstep := saveBlob_step_mid cfg (sha256 B) (B.take (i * cfg.chunkSize))
          ((x :: xs).take cfg.chunkSize) ts B.length i H
          (by rw [hpre_len]; exact Nat.lt_irrefl _)
          (by
            rw [beq_eq_false_iff_ne]
            intro hmin
            rw [Nat.min_eq_left (by omega)] at hmin
            omega)
        rw [hstep]
        have hpre1 : B.take (i * cfg.chunkSize) ++ (x :: xs).take cfg.chunkSize =
            B.take ((i + 1) * cfg.chunkSize) := by
          rw [hdrop, ← List.take_add]
          congr 1
          rw [Nat.succ_mul]
        have hd2 : (x :: xs).drop cfg.chunkSize = B.drop ((i + 1) * cfg.chunkSize) := by
          rw [hdrop, List.drop_drop]
          congr 1
          ring
        have hne2 : (x :: xs).drop cfg.chunkSize ≠ [] := by
          intro hc
          have h1 : ((x :: xs).drop cfg.chunkSize).length =
              (x :: xs).length - cfg.chunkSize := List.length_drop _ _
          rw [hc] at h1
          simp only [List.length_nil] at h1
          omega
        have hlen2 : ((x :: xs).drop cfg.chunkSize).length ≤ f := by
          have h1 : ((x :: xs).drop cfg.chunkSize).length =
              (x :: xs).length - cfg.chunkSize := List.length_drop _ _
          have h2 : (x :: xs).length ≤ f + 1 := hlen
          omega
        have haux := ih ((x :: xs).drop cfg.chunkSize) (i + 1) H hne2 hlen2 hd2
        rw [hpre1, haux]
        have hn' : 0 < (splitIntoChunksFuel cfg.chunkSize f
            ((x :: xs).drop cfg.chunkSize)).length :=
          splitIntoChunksFuel_length_pos cfg.chunkSize f _ hne2 hlen2
        rw [List.length_cons]
        rw [show (splitIntoChunksFuel cfg.chunkSize f ((x :: xs).drop cfg.chunkSize)).length
              + 1 - 1 =
            ((splitIntoChunksFuel cfg.chunkSize f ((x :: xs).drop cfg.chunkSize)).length
              - 1) + 1 from by omega]
        rw [List.replicate_succ]
        simp

theorem runSave_inorder (cfg : StorageConfig) (B : List Nat) (ts : Nat)
    (hS : 0 < cfg.chunkSize) (hB : B ≠ []) :
    runSave cfg emptyStorage (generateChunksWith cfg.chunkSize B (sha256 B) ts)
    = ({ blobs := [(sha256 B, B)], heap := [BlobId.mk (sha256 B) ts], hashers := [] },
       List.replicate ((splitBlobIntoChunksWith cfg.chunkSize B).length - 1)
         SaveResult.okQuiet ++ [SaveResult.okNotify]) := by
  cases B with
  | nil => exact absurd rfl hB
  | cons x xs =>
    rw [generateChunksWith, splitBlobIntoChunksWith]
    rw [show splitIntoChunksFuel cfg.chunkSize (x :: xs).length (x :: xs) =
          (x :: xs).take cfg.chunkSize ::
            splitIntoChunksFuel cfg.chunkSize xs.length ((x :: xs).drop cfg.chunkSize)
        from rfl]
    rw [numberChunks, runSave]
    rw [show (0 : Nat) + 1 = 1 from rfl]
    by_cases hlast : (x :: xs).length ≤ cfg.chunkSize
    · have htake : (x :: xs).take cfg.chunkSize = x :: xs :=
        List.take_of_length_le hlast
      have hdropS : (x :: xs).drop cfg.chunkSize = [] :=
        List.drop_eq_nil_of_le hlast
      have hstep := saveBlob_first_last cfg (sha256 (x :: xs))
        ((x :: xs).take cfg.chunkSize) ts (x :: xs).length hlast
        (by rw [htake])
      rw [hstep, hdropS, splitIntoChunksFuel_nil]
      rw [show numberChunks (sha256 (x :: xs)) ts (x :: xs).length 1
            ([] : List (List Nat)) = [] from rfl]
      rw [runSave, htake]
      simp
    · push_neg at hlast
      have hstep := saveBlob_first_mid cfg (sha256 (x :: xs))
        ((x :: xs).take cfg.chunkSize) ts (x :: xs).length (by omega)
      rw [hstep]
      have htake1 : (x :: xs).take cfg.chunkSize = (x :: xs).take (1 * cfg.chunkSize) := by
        rw [Nat.one_mul]
      have hne2 : (x :: xs).drop cfg.chunkSize ≠ [] := by
        intro hc
        have h1 : ((x :: xs).drop cfg.chunkSize).length =
            (x :: xs).length - cfg.chunkSize := List.length_drop _ _
        rw [hc] at h1
        simp only [List.length_nil] at h1
        omega
      have hlen2 : ((x :: xs).drop cfg.chunkSize).length ≤ xs.length := by
        have h1 : ((x :: xs).drop cfg.chunkSize).length =
            (x :: xs).length - cfg.chunkSize := List.length_drop _ _
        have h2 : (x :: xs).length = xs.length + 1 := rfl
        omega
      have hd2 : (x :: xs).drop cfg.chunkSize = (x :: xs).drop (1 * cfg.chunkSize) := by
        rw [Nat.one_mul]
      have haux := runSave_inorder_aux cfg (x :: xs) ts hS xs.length
        ((x :: xs).drop cfg.chunkSize) 1 [BlobId.mk (sha256 (x :: xs)) ts]
        hne2 hlen2 hd2
      rw [htake1, haux]
      have hn' : 0 < (splitIntoChunksFuel cfg.chunkSize xs.length
          ((x :: xs).drop cfg.chunkSize)).length :=
        splitIntoChunksFuel_length_pos cfg.chunkSize xs.length _ hne2 hlen2
      rw [List.length_cons]
      rw [show (splitIntoChunksFuel cfg.chunkSize xs.length
            ((x :: xs).drop cfg.chunkSize)).length + 1 - 1 =
          ((splitIntoChunksFuel cfg.chunkSize xs.length
            ((x :: xs).drop cfg.chunkSize)).length - 1) + 1 from by omega]
      rw [List.replicate_succ]
      simp

/-! ## The completing-call postcondition of `save_blob` -/

theorem insertMap_keys_nodup (m : List (List Nat × List Nat)) (chunk : BlobChunk)
    (h : (akeys m).Nodup) : (akeys (insertMap m chunk)).Nodup := by
  rw [insertMap]
  by_cases hex : (alookup m chunk.digest).isNone = true
  · rw [if_pos hex]
    exact akeys_ainsert_nodup _ _ (akeys_ainsert_nodup _ _ h)
  · rw [if_neg hex]
    exact akeys_ainsert_nodup _ _ h

theorem saveBlobHeapPhase_keys_nodup (s : StorageState) (chunk : BlobChunk)
    (h : (akeys s.blobs).Nodup) :
    (akeys (saveBlobHeapPhase s chunk).blobs).Nodup := by
  rw [saveBlobHeapPhase]
  by_cases hex : (alookup s.blobs chunk.digest).isSome = true
  · rw [if_pos hex]
    exact h
  · rw [if_neg hex]
    cases hin : insertToTimeHeap s.heap chunk.digest chunk.timestamp with
    | mk h2 expired =>
      cases expired with
      | none => exact h
      | some e => exact akeys_aremove_nodup _ h

theorem saveBlob_complete_check (cfg : StorageConfig) (s : StorageState)
    (chunk : BlobChunk) (hnod : (akeys s.blobs).Nodup)
    (hcomp : min (chunk.index * cfg.chunkSize + cfg.chunkSize) chunk.total =
      chunk.total) :
    (∀ acc, hasherAfterGuard cfg s chunk = some acc →
      (sha256 acc = chunk.digest →
        (saveBlob cfg s chunk).2 = SaveResult.okNotify) ∧
      (sha256 acc ≠ chunk.digest →
        (saveBlob cfg s chunk).2 = SaveResult.errMismatch ∧
        alookup (saveBlob cfg s chunk).1.blobs chunk.digest = none)) ∧
    (hasherAfterGuard cfg s chunk = none →
      (saveBlob cfg s chunk).2 = SaveResult.errMismatch ∧
      alookup (saveBlob cfg s chunk).1.blobs chunk.digest = none) := by
  have hcomp' : (min (chunk.index * cfg.chunkSize + cfg.chunkSize) chunk.total ==
      chunk.total) = true := beq_iff_eq.mpr hcomp
  have hnod3 : (akeys (insertMap (saveBlobHeapPhase s chunk).blobs chunk)).Nodup :=
    insertMap_keys_nodup _ _ (saveBlobHeapPhase_keys_nodup s chunk hnod)
  constructor
  · intro acc hacc
    rw [hasherAfterGuard] at hacc
    constructor
    · intro hsha
      simp only [saveBlob, insertToStoreMap, checkDigest, hcomp', if_true, hacc]
      rw [show (sha256 acc == chunk.digest) = true from beq_iff_eq.mpr hsha]
      simp
    · intro hsha
      simp only [saveBlob, insertToStoreMap, checkDigest, hcomp', if_true, hacc]
      rw [show (sha256 acc == chunk.digest) = false from beq_eq_false_iff_ne.mpr hsha]
      simp only [Bool.false_eq_true, if_false]
      exact ⟨by trivial, alookup_aremove_self _ hnod3⟩
  · intro hacc
    rw [hasherAfterGuard] at hacc
    simp only [saveBlob, insertToStoreMap, checkDigest, hcomp', if_true, hacc]
    exact ⟨by trivial, alookup_aremove_self _ hnod3⟩

/-! ## The bounded-read windows -/

theorem boundedReads_spec (cfg : StorageConfig)
    (blobs : List (List Nat × List Nat)) (digest : List Nat) (i : Nat) :
    (∀ data, alookup blobs digest = some data →
      getBlob cfg blobs digest =
        { data := data.take cfg.queryResponseSize,
          next := if cfg.queryResponseSize < data.length then some 1 else none } ∧
      (cfg.queryResponseSize * i ≤ data.length →
        getBlobWithIndex cfg blobs digest i =
          some { data := (data.take (cfg.queryResponseSize * (i + 1))).drop
                   (cfg.queryResponseSize * i),
                 next := if cfg.queryResponseSize * (i + 1) < data.length
                   then some (i + 1) else none }) ∧
      (data.length < cfg.queryResponseSize * i →
        getBlobWithIndex cfg blobs digest i = none)) ∧
    (alookup blobs digest = none →
      getBlob cfg blobs digest = { data := [], next := none } ∧
      getBlobWithIndex cfg blobs digest i = some { data := [], next := none }) := by
  constructor
  · intro data hdata
    refine ⟨?_, ?_, ?_⟩
    · rw [getBlob, hdata]
      dsimp only
      by_cases h : cfg.queryResponseSize < data.length
      · rw [if_pos h, if_pos h]
      · rw [if_neg h, if_neg h, List.take_of_length_le (Nat.le_of_not_lt h)]
    · intro hle
      rw [getBlobWithIndex, hdata]
      dsimp only
      by_cases h : cfg.queryResponseSize * (i + 1) < data.length
      · rw [if_pos h, if_pos h]
      · rw [if_neg h, if_pos hle, if_neg h,
            List.take_of_length_le (Nat.le_of_not_lt h)]
    · intro hlt
      rw [getBlobWithIndex, hdata]
      dsimp only
      have hmono : cfg.queryResponseSize * i ≤ cfg.queryResponseSize * (i + 1) :=
        Nat.mul_le_mul_left _ (Nat.le_succ _)
      rw [if_neg (by omega)]
      rw [if_neg (by omega)]
  · intro hnone
    constructor
    · rw [getBlob, hnone]
    · rw [getBlobWithIndex, hnone]

/-! ## The claims -/

/-- C1: the claim says a served `Confirmed` confirmation verifies as
`Valid` with the Merkle proof checked against `CONFIRMATION_BATCH_SIZE`
leaves.  The code instead hard-codes `total_leaves_count = 6` in
`verify_confirmation` while batches hold 12 digests: for a full batch of
twelve digests the served confirmation carries `leaf_digest = D` but
verifies as `InvalidProof` even when the ECDSA check passes (and as
`InvalidSignature` when it does not), never as `Valid`. -/
theorem c1_confirmed_never_valid :
    runInserts defaultSignerConfig emptySigner c1Digests =
      some (c1Inserted, [(0, c1Snapshot)]) ∧
    getConfirmation c1State c1Leaf = some (ConfirmationStatus.Confirmed c1Conf) ∧
    c1Conf.proof.leafDigest = c1Leaf ∧
    verifyConfirmation (fun _ _ => true) c1Conf = some VerifyResult.InvalidProof ∧
    verifyConfirmation (fun _ _ => false) c1Conf =
      some VerifyResult.InvalidSignature := by
  refine ⟨by decide, by decide, by decide, by decide, by decide⟩

/-- C2 counterexample: with one-byte chunks and blob `[1, 2, 3]`, the
arrival order chunk0, chunk0 again, then a crafted index-2 chunk carrying
`[2, 3]` is accepted (`Ok` and the signer notified) although the stored
buffer `[1, 1, 2, 3]` does not hash to the chunk's digest — refuting the
claim that acceptance recomputes SHA-256 over the assembled buffer. -/
theorem c2_counterexample :
    c2Run.2 = [SaveResult.okQuiet, SaveResult.okQuiet, SaveResult.okNotify] ∧
    alookup c2Run.1.blobs c2Digest = some [1, 1, 2, 3] ∧
    decide (sha256 [1, 1, 2, 3] = c2Digest) = false := by
  refine ⟨by decide, by decide, by decide⟩

/-- C2 (amended): at a completing `save_blob` call the replica finalizes
the incremental hasher — fed, in arrival order, the data of exactly those
chunks that passed the buffer-length guard — and accepts if and only if
that hash equals `chunk.digest`; on mismatch (or a missing hasher) the
stored buffer is deleted and the digest-mismatch error returned, on match
the signer notification is spawned. -/
theorem c2_amended_incremental_digest_check (cfg : StorageConfig)
    (s : StorageState) (chunk : BlobChunk) (hnod : (akeys s.blobs).Nodup)
    (hcomp : min (chunk.index * cfg.chunkSize + cfg.chunkSize) chunk.total =
      chunk.total) :
    (∀ acc, hasherAfterGuard cfg s chunk = some acc →
      (sha256 acc = chunk.digest →
        (saveBlob cfg s chunk).2 = SaveResult.okNotify) ∧
      (sha256 acc ≠ chunk.digest →
        (saveBlob cfg s chunk).2 = SaveResult.errMismatch ∧
        alookup (saveBlob cfg s chunk).1.blobs chunk.digest = none)) ∧
    (hasherAfterGuard cfg s chunk = none →
      (saveBlob cfg s chunk).2 = SaveResult.errMismatch ∧
      alookup (saveBlob cfg s chunk).1.blobs chunk.digest = none) :=
  saveBlob_complete_check cfg s chunk hnod hcomp

theorem c2_amended_witness :
    (saveBlob c2Cfg emptyStorage
      { index := 0, digest := sha256 [9], timestamp := 1, total := 1,
        data := [9] }).2 = SaveResult.okNotify :=
  ((c2_amended_incremental_digest_check c2Cfg emptyStorage
      { index := 0, digest := sha256 [9], timestamp := 1, total := 1, data := [9] }
      (by decide) (by decide)).1 [9] (by decide)).1 (by decide)

/-- C3 counterexample: with one-byte chunks and blob `[5, 6]`, delivering
chunk 1 then chunk 0 (all indices covered, correct digests) ends with the
stored bytes `[5]`, not the blob — refuting offset-addressed,
order-independent reassembly: `insert_map` appends. -/
theorem c3_counterexample :
    c3Run.2 = [SaveResult.errMismatch, SaveResult.okQuiet] ∧
    alookup c3Run.1.blobs c3Digest = some [5] ∧
    decide (alookup c3Run.1.blobs c3Digest = some [5, 6]) = false := by
  refine ⟨by decide, by decide, by decide⟩

/-- C3 (amended): chunks are appended to the buffer in arrival order, so
reassembly is correct exactly for in-order, exactly-once delivery: sending
the chunking of a nonempty blob B (at the configured chunk size) in
ascending index order from the empty replica state stores B under its
digest, with every call but the last returning quietly and the last
accepting and notifying the signer. -/
theorem c3_amended_inorder_reassembly (cfg : StorageConfig) (B : List Nat)
    (ts : Nat) (hS : 0 < cfg.chunkSize) (hB : B ≠ []) :
    alookup (runSave cfg emptyStorage
        (generateChunksWith cfg.chunkSize B (sha256 B) ts)).1.blobs (sha256 B)
      = some B ∧
    (runSave cfg emptyStorage (generateChunksWith cfg.chunkSize B (sha256 B) ts)).2
      = List.replicate ((splitBlobIntoChunksWith cfg.chunkSize B).length - 1)
          SaveResult.okQuiet ++ [SaveResult.okNotify] := by
  rw [runSave_inorder cfg B ts hS hB]
  exact ⟨by simp [alookup], rfl⟩

theorem c3_amended_witness :
    alookup (runSave c2Cfg emptyStorage
        (generateChunksWith c2Cfg.chunkSize [5, 6] (sha256 [5, 6]) 7)).1.blobs
        (sha256 [5, 6])
      = some [5, 6] :=
  (c3_amended_inorder_reassembly c2Cfg [5, 6] 7 (by decide) (by decide)).1

/-- C4: the claim (and the repository's own `ReUploader`, whose tests pin
the format `(canister_id)_chunk_(nanos).bin`) expects spill files matching
`^[a-z0-9-]+_chunk_\d+\.bin$`.  The spill site in
`push_chunks_to_canister` instead writes `chunk_(canister_id)_(index).bin`,
which neither matches the anchored regex nor contains any match for the
reupload parser's search — so `parse_canister_id_from_file_name` panics on
every spilled file. -/
theorem c4_backup_file_name_mismatch :
    pushBackupFileName c4Cid 0 = "chunk_hxctj-oiaaa-aaaap-qhltq-cai_0.bin" ∧
    matchesChunkNameAnchored (pushBackupFileName c4Cid 0) = false ∧
    containsChunkName (pushBackupFileName c4Cid 0) = false ∧
    matchesChunkNameAnchored
      (generateBackupFileName c4Cid "chunk" 1700000000000000000) = true ∧
    containsChunkName
      (generateBackupFileName c4Cid "chunk" 1700000000000000000) = true := by
  refine ⟨rfl, by decide, by decide, by decide, by decide⟩

/-- C5 counterexample: with one-digest batches and a live time of one
batch, after inserting three digests the open index is 3 and the first
digest's recorded batch index 0 satisfies 0 ≤ 3 − 1, yet
`get_confirmation` returns `Pending`, not `Invalid`: batch 0 is never
pruned (`prune_expired_confirmation` returns early when
`current ≤ live_time`, and the pruned index trails the claimed window by
one). -/
theorem c5_counterexample :
    alookup c5State.indexMap (c5D 0) = some 0 ∧
    c5State.currentIndex = 3 ∧
    getConfirmation c5State (c5D 0) = some ConfirmationStatus.Pending ∧
    decide (getConfirmation c5State (c5D 0) =
      some ConfirmationStatus.Invalid) = false := by
  refine ⟨by decide, by decide, by decide, by decide⟩

/-- C5 (amended): in every signer state reachable by `insert_digest`
calls, a surviving index entry points to batch 0 or to a batch index b
with `current_open_index ≤ b + confirmation_live_time`; digests of every
other (pruned) batch have no index entry, and any digest without an index
entry gets `Invalid` from `get_confirmation`. -/
theorem c5_amended_expiry (cfg : SignerConfig) (s : SignerState)
    (h : SignerReachable cfg s) :
    (∀ d b, alookup s.indexMap d = some b →
      b = 0 ∨ s.currentIndex ≤ b + cfg.confirmationLiveTime) ∧
    (∀ d, alookup s.indexMap d = none →
      getConfirmation s d = some ConfirmationStatus.Invalid) := by
  obtain ⟨_, _, _, _, hW3, _, _⟩ := signerWF_reachable cfg s h
  refine ⟨hW3, ?_⟩
  intro d hd
  rw [getConfirmation, hd]

theorem c5_amended_witness :
    getConfirmation c5State (c5D 1) = some ConfirmationStatus.Invalid :=
  (c5_amended_expiry c5Cfg c5State
    (SignerReachable.step (c5D 2)
      (SignerReachable.step (c5D 1)
        (SignerReachable.step (c5D 0) SignerReachable.init rfl) rfl) rfl)).2
    (c5D 1) (by decide)

/-- C6 counterexample: with a one-byte query window and a stored one-byte
blob, the claim promises `get_blob_with_index(digest, 2)` returns the
(empty) bytes of `[2·Q, min(3·Q, 1))`; the code instead slices
`data[2..]` on a length-1 buffer and traps. -/
theorem c6_counterexample :
    alookup c6Blobs c6Digest = some [7] ∧
    getBlobWithIndex c6Cfg c6Blobs c6Digest 2 = none ∧
    decide (getBlobWithIndex c6Cfg c6Blobs c6Digest 2 =
      some { data := [], next := none }) = false := by
  refine ⟨by decide, by decide, by decide⟩

/-- C6 (amended): for a stored blob, `get_blob` returns the first
`min(len, Q)` bytes with `next = Some 1` iff `len > Q`, and
`get_blob_with_index(digest, i)` returns the bytes
`[i*Q, min((i+1)*Q, len))` with `next = Some (i+1)` iff more remains —
but only while `i*Q ≤ len`; when `i*Q > len` the slice traps instead of
returning an empty window.  For an absent digest both calls return empty
data with `next = None`. -/
theorem c6_amended_bounded_reads (cfg : StorageConfig)
    (blobs : List (List Nat × List Nat)) (digest : List Nat) (i : Nat) :
    (∀ data, alookup blobs digest = some data →
      getBlob cfg blobs digest =
        { data := data.take cfg.queryResponseSize,
          next := if cfg.queryResponseSize < data.length then some 1 else none } ∧
      (cfg.queryResponseSize * i ≤ data.length →
        getBlobWithIndex cfg blobs digest i =
          some { data := (data.take (cfg.queryResponseSize * (i + 1))).drop
                   (cfg.queryResponseSize * i),
                 next := if cfg.queryResponseSize * (i + 1) < data.length
                   then some (i + 1) else none }) ∧
      (data.length < cfg.queryResponseSize * i →
        getBlobWithIndex cfg blobs digest i = none)) ∧
    (alookup blobs digest = none →
      getBlob cfg blobs digest = { data := [], next := none } ∧
      getBlobWithIndex cfg blobs digest i = some { data := [], next := none }) :=
  boundedReads_spec cfg blobs digest i

theorem c6_amended_witness :
    getBlob c6Cfg c6Blobs c6Digest =
      { data := List.take c6Cfg.queryResponseSize [7],
        next := if c6Cfg.queryResponseSize < List.length [7] then some 1
          else none } ∧
    getBlobWithIndex c6Cfg c6Blobs c6Digest 2 = none :=
  ⟨((c6_amended_bounded_reads c6Cfg c6Blobs c6Digest 2).1 [7] (by decide)).1,
   ((c6_amended_bounded_reads c6Cfg c6Blobs c6Digest 2).1 [7]
     (by decide)).2.2 (by decide)⟩

/-- C7 counterexample: the claim bounds the heap by the configured
`canister_storage_threshold`.  `insert_to_time_heap` compares against the
compile-time constant `CANISTER_THRESHOLD = 30240` and ignores the
config: with a configured threshold of 1, two saved blobs leave two heap
entries. -/
theorem c7_counterexample :
    c7Cfg.canisterStorageThreshold = 1 ∧
    (runSave c7Cfg emptyStorage [c7A, c7B]).1.heap.length = 2 ∧
    decide ((runSave c7Cfg emptyStorage [c7A, c7B]).1.heap.length ≤
      c7Cfg.canisterStorageThreshold) = false := by
  refine ⟨by decide, by decide, by decide⟩

/-- C7 (amended): after any sequence of `save_blob` calls from the empty
state the heap holds at most `CANISTER_THRESHOLD = 30240` entries (the
compile-time constant, not the configured threshold); every KV key is
covered by a heap entry for sequences of at most 30240 calls; and a save
of a fresh digest into a full heap pops a minimum-timestamp entry, leaves
the rest as the new heap, and deletes the popped digest's blob from the
KV (when that digest differs from the arriving chunk's). -/
theorem c7_amended_retention (cfg : StorageConfig) (chunks : List BlobChunk)
    (s : StorageState) (chunk : BlobChunk)
    (hnod : (akeys s.blobs).Nodup)
    (habs : alookup s.blobs chunk.digest = none)
    (hfull : s.heap.length = CANISTER_THRESHOLD) :
    (runSave cfg emptyStorage chunks).1.heap.length ≤ CANISTER_THRESHOLD ∧
    (chunks.length ≤ CANISTER_THRESHOLD →
      KVCovered (runSave cfg emptyStorage chunks).1) ∧
    (∃ m rest,
      heapPop (s.heap ++ [BlobId.mk chunk.digest chunk.timestamp]) =
        some (m, rest) ∧
      (∀ e ∈ s.heap ++ [BlobId.mk chunk.digest chunk.timestamp],
        m.timestamp ≤ e.timestamp) ∧
      (saveBlob cfg s chunk).1.heap = rest ∧
      (m.digest ≠ chunk.digest →
        alookup (saveBlob cfg s chunk).1.blobs m.digest = none)) := by
  refine ⟨runSave_heap_le cfg chunks emptyStorage (by simp [emptyStorage]),
    ?_, saveBlob_evicts cfg s chunk hnod habs hfull⟩
  intro hlen
  refine runSave_covered cfg chunks emptyStorage ?_ ?_
  · intro d hd
    simp [emptyStorage, alookup] at hd
  · simpa [emptyStorage] using hlen

theorem c7_amended_witness :
    (runSave c7Cfg emptyStorage [c7A, c7B]).1.heap.length ≤
      CANISTER_THRESHOLD :=
  (c7_amended_retention c7Cfg [c7A, c7B] c7Full c7A
    (by simp [c7Full, akeys]) rfl (List.length_replicate _ _)).1

/-- C8: in every signer state reachable by `insert_digest` calls, each
digest D appears in the nodes of all batches at most once in total, and
whenever the digest index maps D to a batch index, that batch exists and
its nodes contain D exactly once. -/
theorem c8_insert_idempotent (cfg : SignerConfig) (s : SignerState)
    (h : SignerReachable cfg s) (d : List Nat) :
    (s.batchMap.map (fun e => e.2.nodes.count d)).sum ≤ 1 ∧
    ∀ b, alookup s.indexMap d = some b →
      ∃ batch, alookup s.batchMap b = some batch ∧ batch.nodes.count d = 1 := by
  have hwf := signerWF_reachable cfg s h
  exact ⟨signerWF_global_once cfg s hwf d, fun b hb => hwf.2.2.1 d b hb⟩

theorem c8_witness :
    (c5State.batchMap.map (fun e => e.2.nodes.count (c5D 0))).sum ≤ 1 :=
  (c8_insert_idempotent c5Cfg c5State
    (SignerReachable.step (c5D 2)
      (SignerReachable.step (c5D 1)
        (SignerReachable.step (c5D 0) SignerReachable.init rfl) rfl) rfl)
    (c5D 0)).1

/-- C9 counterexample: in the corrupt state mapping a digest to a missing
batch, `get_confirmation` hits the `.unwrap()` on the batch lookup and
traps (`none`), rather than logging and returning `Invalid` as the claim
says. -/
theorem c9_counterexample :
    alookup c9State.indexMap c9D = some 5 ∧
    alookup c9State.batchMap 5 = none ∧
    getConfirmation c9State c9D = none ∧
    decide (getConfirmation c9State c9D =
      some ConfirmationStatus.Invalid) = false := by
  refine ⟨by decide, by decide, by decide, by decide⟩

/-- C9 (amended): whenever the digest index maps D to a batch index with
no entry in the batch map, `get_confirmation(D)` traps — the batch lookup
is `.unwrap()`ed, so the InvariantViolation case aborts the call instead
of degrading to `Invalid`. -/
theorem c9_amended_trap (s : SignerState) (d : List Nat) (b : Nat)
    (hidx : alookup s.indexMap d = some b)
    (hbat : alookup s.batchMap b = none) :
    getConfirmation s d = none := by
  rw [getConfirmation, hidx]
  dsimp only
  rw [hbat]

theorem c9_witness :
    getConfirmation c9State c9D = none :=
  c9_amended_trap c9State c9D 5 (by decide) (by decide)

theorem getBlobFromCanister_absent (cfg : StorageConfig)
    (blobs : List (List Nat × List Nat)) (key : BlobKey)
    (habs : alookup blobs key.digest = none) :
    getBlobFromCanister cfg blobs key = none := by
  have hgb : getBlob cfg blobs key.digest = { data := [], next := none } := by
    rw [getBlob, habs]
  rw [getBlobFromCanister, hgb]
  rfl

/-- C10: pushing the empty blob yields a key carrying `sha256 []` and
`total_size = 0` but generates zero chunks, so no replica ever stores
anything under that digest; reading it back from any replica that holds
no entry for that digest reassembles an empty buffer, which
`get_blob_from_canister` rejects — the empty blob is never retrievable. -/
theorem c10_empty_blob_unretrievable (cfg : StorageConfig)
    (blobs : List (List Nat × List Nat)) (ts : Nat) (hosts : List String)
    (habs : alookup blobs (sha256 []) = none) :
    (pushBlobKey [] ts hosts).digest = sha256 [] ∧
    (pushBlobKey [] ts hosts).routingInfo.totalSize = 0 ∧
    pushBlobChunks [] ts = [] ∧
    getBlobFromCanister cfg blobs (pushBlobKey [] ts hosts) = none :=
  ⟨rfl, rfl, rfl, getBlobFromCanister_absent cfg blobs _ habs⟩

theorem c10_witness :
    getBlobFromCanister c6Cfg [] (pushBlobKey [] 5 ["aaaaa-aa"]) = none :=
  (c10_empty_blob_unretrievable c6Cfg [] 5 ["aaaaa-aa"] rfl).2.2.2
